import Mathlib

/-!
# Verification of the komodo-docs-mdx tooling scripts

Shallow embedding of the JavaScript tooling of the komodo-docs-mdx
repository (GitHub bot scripts, CompactTable validators, sidebar
maintenance scripts, table conversion utilities) together with proofs of
the behavioural properties claimed in the specification.

Conventions:
* JavaScript values that can be `undefined`/`null`/booleans/numbers/strings
  are modelled by `JSVal`; parsed JSON documents by `Json`.
* JavaScript string methods (`split`, one-shot `replace`, `trim`,
  `toLowerCase`, `startsWith`, `endsWith`) are modelled by executable Lean
  functions on `String`/`List Char`.
* Stateful scripts are modelled by explicit state passing: each work-item
  processor is a function from state to state, and a batch run is a fold.
-/

namespace KomodoDocs

/-! ## A model of loosely typed JavaScript values -/

/-- A JavaScript value as it appears in the table-conversion utilities:
`undefined`, `null`, a boolean, a number, or a string. -/
inductive JSVal where
  | undef
  | null
  | bool (b : Bool)
  | num (n : Int)
  | str (s : String)
  deriving DecidableEq, Repr

/-- JavaScript truthiness of a `JSVal`. -/
def JSVal.truthy : JSVal → Bool
  | .undef => false
  | .null => false
  | .bool b => b
  | .num n => n != 0
  | .str s => s != ""

/-- The JavaScript `a || b` operator on values: `a` if truthy, else `b`. -/
def jsOr (a b : JSVal) : JSVal := if a.truthy then a else b

/-- JavaScript `String.prototype.toLowerCase` (character-wise). -/
def jsToLower (s : String) : String := ⟨s.data.map Char.toLower⟩

/-- Whitespace as trimmed by JavaScript `String.prototype.trim`. -/
def isJsWS (c : Char) : Bool := c = ' ' ∨ c = '\t' ∨ c = '\n' ∨ c = '\r'

/-- JavaScript `String.prototype.trim`: strip whitespace at both ends. -/
def jsTrim (s : String) : String :=
  ⟨((s.data.dropWhile isJsWS).reverse.dropWhile isJsWS).reverse⟩

/-- JavaScript `s.startsWith(pre)`. -/
def jsStartsWith (s pre : String) : Bool := pre.data.isPrefixOf s.data

/-- JavaScript `s.endsWith(suf)`. -/
def jsEndsWith (s suf : String) : Bool := suf.data.isSuffixOf s.data

/-! ## `convertMethodToPath` (auto-pr script)

Source: `AutoPRManager.convertMethodToPath`,
`return method.replace(/::/g, '-')` — a global, left-to-right,
non-overlapping replacement of `::` by `-`. -/

/-- Left-to-right non-overlapping replacement of the two-character sequence
`::` by `-`, exactly as `method.replace(/::/g, '-')` performs it. -/
def convertMethodToPathChars (l : List Char) : List Char :=
  match l with
  | [] => []
  | [c] => [c]
  | c1 :: c2 :: rest =>
    if c1 = ':' ∧ c2 = ':' then '-' :: convertMethodToPathChars rest
    else c1 :: convertMethodToPathChars (c2 :: rest)

/-- `AutoPRManager.convertMethodToPath`: converts a KDF method name to a
filesystem path piece, e.g. `task::enable_utxo::init` to
`task-enable_utxo-init`. -/
def convertMethodToPath (method : String) : String :=
  ⟨convertMethodToPathChars method.data⟩

/-- Whether a character list contains two adjacent colons (i.e. the
substring `::`). -/
def hasDoubleColon (l : List Char) : Bool :=
  match l with
  | [] => false
  | [_] => false
  | c1 :: c2 :: rest =>
    if c1 = ':' ∧ c2 = ':' then true else hasDoubleColon (c2 :: rest)

theorem hasDoubleColon_iff_colonPair (l : List Char) :
    hasDoubleColon l = true ↔ [':', ':'] <:+: l := by
  induction l using hasDoubleColon.induct with
  | case1 =>
    simp [hasDoubleColon]
  | case2 c =>
    simp only [hasDoubleColon, Bool.false_eq_true, false_iff]
    intro h
    exact absurd h.length_le (by simp)
  | case3 c1 c2 rest h =>
    obtain ⟨h1, h2⟩ := h
    subst h1; subst h2
    constructor
    · intro _
      exact ⟨[], rest, rfl⟩
    · intro _
      simp [hasDoubleColon]
  | case4 c1 c2 rest h ih =>
    simp only [hasDoubleColon, if_neg h]
    rw [ih]
    constructor
    · intro hinf
      exact List.infix_cons hinf
    · intro hinf
      rcases List.infix_cons_iff.mp hinf with hpre | htail
      · exfalso
        obtain ⟨t, ht⟩ := hpre
        injection ht with h1 ht'
        injection ht' with h2 _
        exact h ⟨h1.symm, h2.symm⟩
      · exact htail

theorem convertMethodToPathChars_of_no_doubleColon (l : List Char)
    (h : hasDoubleColon l = false) : convertMethodToPathChars l = l := by
  induction l using convertMethodToPathChars.induct with
  | case1 => rfl
  | case2 c => rfl
  | case3 c1 c2 rest hc ih =>
    exfalso
    simp only [hasDoubleColon, if_pos hc] at h
    exact Bool.noConfusion h
  | case4 c1 c2 rest hc ih =>
    simp only [convertMethodToPathChars, if_neg hc]
    simp only [hasDoubleColon, if_neg hc] at h
    rw [ih h]

/-- If a string does not start with `:`, conversion leaves its head
character in place. -/
theorem convertMethodToPathChars_head (c : Char) (t : List Char)
    (h : c ≠ ':') :
    ∃ t', convertMethodToPathChars (c :: t) = c :: t' := by
  cases t with
  | nil => exact ⟨[], rfl⟩
  | cons d t'' =>
    rw [convertMethodToPathChars]
    have : ¬(c = ':' ∧ d = ':') := fun hcd => h hcd.1
    simp only [if_neg this]
    exact ⟨_, rfl⟩

theorem hasDoubleColon_convertMethodToPathChars (l : List Char) :
    hasDoubleColon (convertMethodToPathChars l) = false := by
  induction l using convertMethodToPathChars.induct with
  | case1 => rfl
  | case2 c => rfl
  | case3 c1 c2 rest hc ih =>
    rw [convertMethodToPathChars, if_pos hc]
    cases hout : convertMethodToPathChars rest with
    | nil => rfl
    | cons d t =>
      rw [hasDoubleColon]
      have : ¬('-' = ':' ∧ d = ':') := fun h => by simp at h
      rw [if_neg this, ← hout, ih]
  | case4 c1 c2 rest hc ih =>
    rw [convertMethodToPathChars, if_neg hc]
    by_cases hc2 : c2 = ':'
    · have hc1 : c1 ≠ ':' := fun h1 => hc ⟨h1, hc2⟩
      cases hout : convertMethodToPathChars (c2 :: rest) with
      | nil => rfl
      | cons d t =>
        rw [hasDoubleColon]
        have : ¬(c1 = ':' ∧ d = ':') := fun h => hc1 h.1
        rw [if_neg this, ← hout, ih]
    · obtain ⟨t', ht'⟩ := convertMethodToPathChars_head c2 rest hc2
      rw [ht', hasDoubleColon]
      have : ¬(c1 = ':' ∧ c2 = ':') := hc
      rw [if_neg this, ← ht', ih]

/-- C4 -- `convertMethodToPath` is the pure string transform replacing
every occurrence of `::` by `-`: it maps `a::b::c` to `a-b-c`, it is
idempotent (applying it twice yields the same output as applying it
once), and it returns any name containing no `::` unchanged. -/
theorem convertMethodToPath_spec :
    convertMethodToPath "a::b::c" = "a-b-c" ∧
    (∀ method : String,
      convertMethodToPath (convertMethodToPath method) =
        convertMethodToPath method) ∧
    (∀ method : String, ¬ ([':', ':'] <:+: method.data) →
      convertMethodToPath method = method) := by
  refine ⟨by decide, ?_, ?_⟩
  · intro method
    have hdc : hasDoubleColon (convertMethodToPathChars method.data) = false :=
      hasDoubleColon_convertMethodToPathChars method.data
    show (⟨convertMethodToPathChars (convertMethodToPathChars method.data)⟩ :
      String) = ⟨convertMethodToPathChars method.data⟩
    rw [convertMethodToPathChars_of_no_doubleColon _ hdc]
  · intro method h
    have hfalse : hasDoubleColon method.data = false := by
      cases hd : hasDoubleColon method.data with
      | false => rfl
      | true => exact absurd ((hasDoubleColon_iff_colonPair _).mp hd) h
    show (⟨convertMethodToPathChars method.data⟩ : String) = method
    rw [convertMethodToPathChars_of_no_doubleColon _ hfalse]

/-- Witness for C4: the no-`::` clause applied at the concrete method name
`my_balance`. -/
theorem convertMethodToPath_spec_witness :
    convertMethodToPath "my_balance" = "my_balance" :=
  convertMethodToPath_spec.2.2 "my_balance" (by decide)

/-! ## `convertLegacyTableData` / `parseRequired` (tableUtils.js) -/

/-- An input row for `convertLegacyTableData`: the JavaScript object may
carry each field under a lower-case or capitalised key (`required` /
`Required`, ...), any of which may be absent (`undef`).  The JavaScript
field `type`/`Type` is rendered `typeLC`/`typeUC` because `Type` is not a
valid Lean field name. -/
structure LegacyRow where
  parameter : JSVal
  parameterUC : JSVal
  typeLC : JSVal
  typeUC : JSVal
  required : JSVal
  requiredUC : JSVal
  defaultLC : JSVal
  defaultUC : JSVal
  description : JSVal
  descriptionUC : JSVal
  deriving DecidableEq, Repr

/-- An output row of `convertLegacyTableData`: `required` is always a
boolean, and `default` is present (`some`) only under the conditions of
the source; absence of the key is `none`. -/
structure ConvertedRow where
  parameter : JSVal
  typeLC : JSVal
  required : Bool
  defaultVal : Option JSVal
  description : JSVal
  deriving DecidableEq, Repr

/-- `parseRequired` from tableUtils.js: booleans pass through, strings are
lower-cased, trimmed and compared against the accepted markers, and every
other value yields `false`. -/
def parseRequired (required : JSVal) : Bool :=
  match required with
  | .bool b => b
  | .str s =>
    let normalized := jsTrim (jsToLower s)
    normalized == "✓" || normalized == "true" || normalized == "yes" ||
      normalized == "required" || normalized == "1"
  | _ => false

/-- `convertLegacyTableData` applied to one row. -/
def convertLegacyRow (row : LegacyRow) : ConvertedRow :=
  let defaultValue := jsOr row.defaultLC row.defaultUC
  { parameter := jsOr row.parameter row.parameterUC
    typeLC := jsOr row.typeLC row.typeUC
    required := parseRequired (jsOr row.required row.requiredUC)
    defaultVal :=
      if defaultValue.truthy ∧ defaultValue ≠ .str "-" ∧
          defaultValue ≠ .str "`-`" then
        some defaultValue
      else none
    description := jsOr row.description row.descriptionUC }

/-- `convertLegacyTableData` from tableUtils.js: `rows.map(...)`. -/
def convertLegacyTableData (rows : List LegacyRow) : List ConvertedRow :=
  rows.map convertLegacyRow

/-- C10 -- every row produced by `convertLegacyTableData` has a boolean
`required` field that is `true` exactly when the row's (coalesced)
required value is the boolean `true` or a string whose lower-cased,
trimmed form is `✓`, `true`, `yes`, `required` or `1`, and carries a
`default` field exactly when the row's (coalesced) default value is truthy
and differs from both `-` and `` `-` ``. -/
theorem convertLegacyTableData_spec (rows : List LegacyRow) :
    ∀ c ∈ convertLegacyTableData rows, ∃ row ∈ rows,
      c = convertLegacyRow row ∧
      (c.required = true ↔
        (jsOr row.required row.requiredUC = .bool true ∨
          ∃ s, jsOr row.required row.requiredUC = .str s ∧
            (jsTrim (jsToLower s) = "✓" ∨ jsTrim (jsToLower s) = "true" ∨
              jsTrim (jsToLower s) = "yes" ∨
              jsTrim (jsToLower s) = "required" ∨
              jsTrim (jsToLower s) = "1"))) ∧
      (c.defaultVal.isSome = true ↔
        ((jsOr row.defaultLC row.defaultUC).truthy = true ∧
          jsOr row.defaultLC row.defaultUC ≠ .str "-" ∧
          jsOr row.defaultLC row.defaultUC ≠ .str "`-`")) := by
  intro c hc
  rw [convertLegacyTableData, List.mem_map] at hc
  obtain ⟨row, hrow, hconv⟩ := hc
  refine ⟨row, hrow, hconv.symm, ?_, ?_⟩
  · subst hconv
    show parseRequired (jsOr row.required row.requiredUC) = true ↔ _
    cases hv : jsOr row.required row.requiredUC with
    | bool b => simp [parseRequired]
    | str s =>
      simp [parseRequired]
      tauto
    | undef => simp [parseRequired]
    | null => simp [parseRequired]
    | num n => simp [parseRequired]
  · subst hconv
    rw [show (convertLegacyRow row).defaultVal =
        (if (jsOr row.defaultLC row.defaultUC).truthy ∧
            jsOr row.defaultLC row.defaultUC ≠ .str "-" ∧
            jsOr row.defaultLC row.defaultUC ≠ .str "`-`" then
          some (jsOr row.defaultLC row.defaultUC) else none) from rfl]
    split
    · next h => simpa using h
    · next h => simpa using h

/-- The first example legacy row of tableUtils.js (`coin`, required `✓`,
default `-`). -/
def sampleLegacyRow : LegacyRow :=
  { parameter := .str "coin", parameterUC := .undef,
    typeLC := .str "string", typeUC := .undef,
    required := .str "✓", requiredUC := .undef,
    defaultLC := .str "-", defaultUC := .undef,
    description := .str "The name of the coin.",
    descriptionUC := .undef }

/-- Witness for C10: on the example legacy row of tableUtils.js (`coin`,
required `✓`, default `-`) the conversion yields `required = true` and no
`default` key. -/
theorem convertLegacyTableData_spec_witness :
    (convertLegacyRow sampleLegacyRow).required = true ∧
      (convertLegacyRow sampleLegacyRow).defaultVal.isSome = false := by
  obtain ⟨row, hrow, heq, hreq, hdef⟩ :=
    convertLegacyTableData_spec [sampleLegacyRow]
      (convertLegacyRow sampleLegacyRow) (by simp [convertLegacyTableData])
  have hr : row = sampleLegacyRow := by simpa using hrow
  subst hr
  constructor
  · exact hreq.mpr (Or.inr ⟨"✓", by decide, by decide⟩)
  · cases hs : (convertLegacyRow sampleLegacyRow).defaultVal.isSome with
    | false => rfl
    | true =>
      obtain ⟨_, hne, _⟩ := hdef.mp hs
      exact absurd (by decide) hne


/-! ## JSON values and JavaScript string splitting -/

/-- A parsed JSON document (`JSON.parse` output). -/
inductive Json where
  | null
  | bool (b : Bool)
  | num (n : Int)
  | str (s : String)
  | arr (elems : List Json)
  | obj (fields : List (String × Json))

/-- JavaScript truthiness of a parsed JSON value: `null`, `false`, `0` and
`""` are falsy; every object and array is truthy. -/
def jsonTruthy : Json → Bool
  | .null => false
  | .bool b => b
  | .num n => n != 0
  | .str s => s != ""
  | .arr _ => true
  | .obj _ => true

/-- Helper for `jsSplit`: accumulates the current segment (reversed). -/
def splitCharAux (sep : Char) : List Char → List Char → List (List Char)
  | [], cur => [cur.reverse]
  | c :: rest, cur =>
    if c = sep then cur.reverse :: splitCharAux sep rest []
    else splitCharAux sep rest (c :: cur)

/-- JavaScript `s.split(sep)` for a one-character separator: returns the
(always non-empty) list of separator-free segments; `"".split(sep)` is
`[""]` and a trailing separator yields a trailing `""` segment. -/
def jsSplit (sep : Char) (s : String) : List String :=
  (splitCharAux sep s.data []).map fun l => ⟨l⟩

/-! ## `validate_compact_table_data.js`: CompactTable source references

Source: `validateCompactTableReferences` (lines 184-215).  A loaded table
file (as produced by `loadTableFiles`) is its path, parsed JSON content
and path relative to the tables directory; the loaded collection is a map
from file keys to table files. -/

/-- One entry of the `tableFiles` map built by `loadTableFiles`. -/
structure TableFile where
  path : String
  content : List (String × Json)
  relativePath : String

/-- The `tableFiles` map: file key to loaded table file. -/
abbrev TableFiles := List (String × TableFile)

/-- One CompactTable `source="file.table"` reference found in an MDX page
by `findCompactTableReferences`. -/
structure CTRef where
  file : String
  source : String
  line : Nat

/-- The per-reference check of `validateCompactTableReferences`: returns
`none` when the reference is accepted and `some errorMessage` when an
error is pushed onto `validationErrors`.  Mirrors the source: destructure
`ref.source.split('.')` into its first two components, reject a falsy
file or table part, then a missing file key, then a falsy
`tableFile.content[tableName]`. -/
def validateRef (tableFiles : TableFiles) (ref : CTRef) : Option String :=
  let parts := jsSplit '.' ref.source
  let fileName := parts.headD ""
  let tableName := (parts[1]?).getD ""
  if fileName = "" ∨ tableName = "" then
    some ("Invalid source format \"" ++ ref.source ++ "\" in " ++ ref.file ++
      " (expected format: \"filename.tablename\")")
  else
    match tableFiles.find? (fun p => p.1 = fileName) with
    | none =>
      some ("Table file \"" ++ fileName ++ "\" not found for reference \"" ++
        ref.source ++ "\" in " ++ ref.file)
    | some (_, tf) =>
      match tf.content.find? (fun p => p.1 = tableName) with
      | none =>
        some ("Table \"" ++ tableName ++ "\" not found in file \"" ++
          fileName ++ "\" for reference \"" ++ ref.source ++ "\" in " ++
          ref.file)
      | some (_, v) =>
        if jsonTruthy v then none
        else
          some ("Table \"" ++ tableName ++ "\" not found in file \"" ++
            fileName ++ "\" for reference \"" ++ ref.source ++ "\" in " ++
            ref.file)

/-- One step of the `references.forEach` loop: an error is appended to the
running `validationErrors` list and the valid-flag cleared. -/
def refErrStep (tableFiles : TableFiles) (acc : List String × Bool)
    (ref : CTRef) : List String × Bool :=
  match validateRef tableFiles ref with
  | some e => (acc.1 ++ [e], false)
  | none => acc

/-- `validateCompactTableReferences`: folds the per-reference check over
all collected references, threading `validationErrors`. -/
def validateCompactTableReferences (references : List CTRef)
    (tableFiles : TableFiles) (validationErrors : List String) :
    List String × Bool :=
  references.foldl (refErrStep tableFiles) (validationErrors, true)

/-- `main` exits with a non-zero status exactly when `validationErrors` is
non-empty (`if (validationErrors.length > 0) { ...; process.exit(1) }`). -/
def exitsNonZero (validationErrors : List String) : Bool :=
  decide (0 < validationErrors.length)

/-- The C2 acceptance condition exactly as the specification states it:
the source splits on `.` into a non-empty file part and table part, the
file part resolves to a loaded table file, and that file's parsed JSON
content contains the table name as a top-level key. -/
def compactRefSpecAccepts (tableFiles : TableFiles) (ref : CTRef) : Bool :=
  let parts := jsSplit '.' ref.source
  let fileName := parts.headD ""
  let tableName := (parts[1]?).getD ""
  fileName != "" && tableName != "" &&
    match tableFiles.find? (fun p => p.1 = fileName) with
    | none => false
    | some (_, tf) => (tf.content.find? (fun p => p.1 = tableName)).isSome

/-- A loaded table file whose `BrokenTable` key is present but maps to the
JSON value `null`. -/
def nullValueTableFiles : TableFiles :=
  [("utils", { path := "src/data/tables/v2/utils.json",
               content := [("BrokenTable", Json.null)],
               relativePath := "v2/utils.json" })]

/-- A CompactTable reference to that `null`-valued table key. -/
def nullValueRef : CTRef :=
  { file := "src/pages/komodo-defi-framework/api/v20/utils/index.mdx",
    source := "utils.BrokenTable", line := 10 }

/-- Counterexample for C2 as stated: for the reference
`source="utils.BrokenTable"` and a loaded `utils.json` whose parsed
content contains `BrokenTable` as a top-level key with value `null`, all
three checks of the claim hold, yet the validator rejects the reference
(the code tests `!tableFile.content[tableName]`, i.e. truthiness of the
value, not key membership). -/
theorem validateRef_cex :
    compactRefSpecAccepts nullValueTableFiles nullValueRef = true ∧
      (validateRef nullValueTableFiles nullValueRef).isSome = true :=
  ⟨rfl, rfl⟩

theorem foldl_refErrStep_fst (tableFiles : TableFiles) (refs : List CTRef) :
    ∀ acc : List String × Bool,
      (refs.foldl (refErrStep tableFiles) acc).1 =
        acc.1 ++ refs.filterMap (validateRef tableFiles) := by
  induction refs with
  | nil => intro acc; simp
  | cons r rs ih =>
    intro acc
    rw [List.foldl_cons, List.filterMap_cons, ih]
    cases h : validateRef tableFiles r with
    | none => simp [refErrStep, h]
    | some e => simp [refErrStep, h]

/-- C2 (amended) -- a CompactTable reference is accepted exactly when its
source splits on `.` into a non-empty file part and table part, the file
part resolves to a loaded table file, and that file's parsed content maps
the table name to a truthy JSON value; every rejected reference appends
its error message to `validationErrors`, which makes the validation run
exit non-zero. -/
theorem validateCompactTableReferences_spec (tableFiles : TableFiles)
    (references : List CTRef) (ref : CTRef) (href : ref ∈ references) :
    (validateRef tableFiles ref = none ↔
      ((jsSplit '.' ref.source).headD "" ≠ "" ∧
        (((jsSplit '.' ref.source)[1]?).getD "") ≠ "" ∧
        ∃ tf, tableFiles.find?
            (fun p => p.1 = (jsSplit '.' ref.source).headD "") =
            some tf ∧
          ∃ v, tf.2.content.find?
              (fun p => p.1 = (((jsSplit '.' ref.source)[1]?).getD "")) =
              some v ∧
            jsonTruthy v.2 = true)) ∧
    (validateRef tableFiles ref ≠ none →
      exitsNonZero
        (validateCompactTableReferences references tableFiles []).1 =
        true) := by
  constructor
  · unfold validateRef
    by_cases hfmt : (jsSplit '.' ref.source).headD "" = "" ∨
        (((jsSplit '.' ref.source)[1]?).getD "") = ""
    · simp only [if_pos hfmt]
      constructor
      · intro h; cases h
      · rintro ⟨h1, h2, -⟩
        exact absurd hfmt (by tauto)
    · simp only [if_neg hfmt]
      push_neg at hfmt
      obtain ⟨h1, h2⟩ := hfmt
      cases hfind : tableFiles.find?
          (fun p => p.1 = (jsSplit '.' ref.source).headD "") with
      | none =>
        simp only [hfind]
        constructor
        · intro h; cases h
        · rintro ⟨-, -, tf, htf, -⟩
          cases htf
      | some tf =>
        obtain ⟨key, tfv⟩ := tf
        simp only [hfind]
        cases hcont : tfv.content.find?
            (fun p => p.1 = (((jsSplit '.' ref.source)[1]?).getD "")) with
        | none =>
          simp only [hcont]
          constructor
          · intro h; cases h
          · rintro ⟨-, -, tf', htf', v, hv, -⟩
            obtain rfl : (key, tfv) = tf' := by injection htf'
            dsimp only at hv
            rw [hcont] at hv
            cases hv
        | some kv =>
          obtain ⟨tkey, v⟩ := kv
          simp only [hcont]
          by_cases htr : jsonTruthy v = true
          · simp only [if_pos htr]
            constructor
            · intro _
              exact ⟨h1, h2, (key, tfv), rfl, (tkey, v), hcont, htr⟩
            · intro _; trivial
          · simp only [if_neg htr]
            constructor
            · intro h; cases h
            · rintro ⟨-, -, tf', htf', v', hv', htr'⟩
              obtain rfl : (key, tfv) = tf' := by injection htf'
              dsimp only at hv'
              rw [hcont] at hv'
              obtain rfl : (tkey, v) = v' := by injection hv'
              dsimp only at htr'
              exact absurd htr' htr
  · intro hbad
    have herrs : (validateCompactTableReferences references tableFiles []).1 =
        references.filterMap (validateRef tableFiles) := by
      rw [validateCompactTableReferences, foldl_refErrStep_fst]
      simp
    rw [herrs]
    cases he : references.filterMap (validateRef tableFiles) with
    | cons e es => simp [exitsNonZero]
    | nil =>
      exfalso
      have : validateRef tableFiles ref = none := by
        have := List.filterMap_eq_nil_iff.mp he
        exact this ref href
      exact hbad this

/-- A well-formed loaded table file collection with one table. -/
def okTableFiles : TableFiles :=
  [("utils", { path := "src/data/tables/v2/utils.json",
               content := [("AddNodeToVersionStatRequest",
                 Json.obj [("data", Json.arr [])])],
               relativePath := "v2/utils.json" })]

/-- A CompactTable reference resolving to that table. -/
def okRef : CTRef :=
  { file := "src/pages/komodo-defi-framework/api/v20/utils/index.mdx",
    source := "utils.AddNodeToVersionStatRequest", line := 5 }

/-- Witness for C2 (amended): the reference
`utils.AddNodeToVersionStatRequest` against the loaded `utils.json` above
is accepted. -/
theorem validateCompactTableReferences_spec_witness :
    validateRef okTableFiles okRef = none :=
  (validateCompactTableReferences_spec okTableFiles [okRef] okRef
      (by simp)).1.mpr
    ⟨by decide, by decide,
      ("utils", { path := "src/data/tables/v2/utils.json",
                  content := [("AddNodeToVersionStatRequest",
                    Json.obj [("data", Json.arr [])])],
                  relativePath := "v2/utils.json" }), rfl,
      ("AddNodeToVersionStatRequest", Json.obj [("data", Json.arr [])]),
      rfl, rfl⟩

/-! ## Response harvester: task lifecycle polling (C5)

The Python response manager itself is not part of the source tree (only
its README, `README_unified_response_manager.md`, and the shell wrapper
are), so the task-lifecycle driver is modelled from the specification. -/

/-- An action issued by the harvester while driving one task-lifecycle
method. -/
inductive TaskAction where
  | init
  | statusCheck (n : Nat)
  | cancel
  deriving DecidableEq, Repr

/-- The outcome of one `status` call. -/
inductive StatusResult where
  | inProgress
  | ok
  | err
  deriving DecidableEq, Repr

/-- Modelled from the spec: "Status polling: 2-second intervals with
20-check limit for task lifecycle" — the per-run bound on status checks. -/
def statusCheckLimit : Nat := 20

/-- Modelled from the spec: the fixed polling interval, in seconds. -/
def statusPollIntervalSeconds : Nat := 2

/-- Modelled from the spec: the polling loop of the response harvester for
a task-lifecycle method.  `statuses k` is the result of the `k`-th
`status` call; polling stops as soon as a non-`inProgress` result arrives
or the check limit is exhausted.  The missing Python implementation is
modelled from the README's "Performance Considerations" section. -/
def pollStatusActions (statuses : Nat → StatusResult) :
    Nat → Nat → List TaskAction
  | 0, _ => []
  | fuel + 1, k =>
    TaskAction.statusCheck k ::
      match statuses k with
      | .inProgress => pollStatusActions statuses fuel (k + 1)
      | _ => []

/-- Modelled from the spec: for a task-lifecycle method the harvester
issues `init`, then polls `status` on the fixed interval up to the
20-check limit, then issues `cancel`. -/
def runTaskLifecycle (statuses : Nat → StatusResult) : List TaskAction :=
  TaskAction.init ::
    (pollStatusActions statuses statusCheckLimit 0 ++ [TaskAction.cancel])

/-- Whether a task action is a status check. -/
def TaskAction.isStatusCheck : TaskAction → Bool
  | .statusCheck _ => true
  | _ => false

theorem pollStatusActions_length (statuses : Nat → StatusResult) :
    ∀ fuel k, (pollStatusActions statuses fuel k).length ≤ fuel := by
  intro fuel
  induction fuel with
  | zero => intro k; simp [pollStatusActions]
  | succ n ih =>
    intro k
    rw [pollStatusActions]
    cases statuses k with
    | inProgress => simpa using ih (k + 1)
    | ok => simp
    | err => simp

/-- C5 -- for every task-lifecycle method the harvester issues `init`
first, then at most 20 status checks (polled on the fixed 2-second
interval), then `cancel`; in particular the polling loop terminates for
every sequence of status responses, with a trace of bounded length. -/
theorem runTaskLifecycle_spec (statuses : Nat → StatusResult) :
    (runTaskLifecycle statuses).head? = some TaskAction.init ∧
    (runTaskLifecycle statuses).getLast? = some TaskAction.cancel ∧
    ((runTaskLifecycle statuses).countP TaskAction.isStatusCheck ≤
      statusCheckLimit) ∧
    (runTaskLifecycle statuses).length ≤ statusCheckLimit + 2 ∧
    statusCheckLimit = 20 ∧ statusPollIntervalSeconds = 2 := by
  refine ⟨rfl, ?_, ?_, ?_, rfl, rfl⟩
  · show (TaskAction.init ::
      (pollStatusActions statuses statusCheckLimit 0 ++
        [TaskAction.cancel])).getLast? = some TaskAction.cancel
    rw [show TaskAction.init ::
        (pollStatusActions statuses statusCheckLimit 0 ++
          [TaskAction.cancel]) =
        (TaskAction.init :: pollStatusActions statuses statusCheckLimit 0) ++
          [TaskAction.cancel] from rfl]
    exact List.getLast?_concat _
  · show ((TaskAction.init ::
      (pollStatusActions statuses statusCheckLimit 0 ++
        [TaskAction.cancel])).countP TaskAction.isStatusCheck ≤
      statusCheckLimit)
    rw [List.countP_cons, List.countP_append]
    have h1 : (TaskAction.isStatusCheck TaskAction.init) = false := rfl
    have h2 : ([TaskAction.cancel].countP TaskAction.isStatusCheck) = 0 := rfl
    rw [h2]
    simp only [h1, Bool.false_eq_true, if_false]
    have := List.countP_le_length
      (l := pollStatusActions statuses statusCheckLimit 0)
      (p := TaskAction.isStatusCheck)
    have hlen := pollStatusActions_length statuses statusCheckLimit 0
    omega
  · show ((TaskAction.init ::
      (pollStatusActions statuses statusCheckLimit 0 ++
        [TaskAction.cancel])).length ≤ statusCheckLimit + 2)
    rw [List.length_cons, List.length_append]
    have hlen := pollStatusActions_length statuses statusCheckLimit 0
    simp only [List.length_cons, List.length_nil]
    omega

/-! ## Response classification (C6)

The classifier itself is likewise absent from the source tree; the
normalization pass and structural comparison are modelled from the
README's "Smart Structure Comparison" section. -/

/-- Modelled from the spec: the wallet-specific field names blanked by the
normalization pass (`address`, `pubkey`, `derivation_path`,
`account_index`). -/
def normalizedFieldNames : List String :=
  ["address", "pubkey", "derivation_path", "account_index"]

/-- Modelled from the spec: address patterns recognized by the
normalization pass — Cosmos (`iaa`, `cosmos`), Ethereum (`0x`), Bitcoin
(`1`, `3`, `bc1`) and generic long values. -/
def isAddressLike (s : String) : Bool :=
  jsStartsWith s "iaa" || jsStartsWith s "cosmos" || jsStartsWith s "0x" ||
    jsStartsWith s "bc1" ||
    ((jsStartsWith s "1" || jsStartsWith s "3") && s.length ≥ 26) ||
    s.length ≥ 60

mutual

/-- Modelled from the spec: the normalization pass — blank wallet-specific
fields and replace address-like strings by `<address>` before comparing
structures across environments. -/
def normalizeResponse : Json → Json
  | .obj fields => .obj (normalizeObj fields)
  | .arr elems => .arr (normalizeList elems)
  | .str s => if isAddressLike s then .str "<address>" else .str s
  | .null => .null
  | .bool b => .bool b
  | .num n => .num n

/-- Normalization of an array of response values. -/
def normalizeList : List Json → List Json
  | [] => []
  | x :: xs => normalizeResponse x :: normalizeList xs

/-- Normalization of the fields of a response object. -/
def normalizeObj : List (String × Json) → List (String × Json)
  | [] => []
  | (k, v) :: xs =>
    (if k ∈ normalizedFieldNames then (k, Json.str "<normalized>")
     else (k, normalizeResponse v)) :: normalizeObj xs

end

mutual

/-- Structural (deep) equality of JSON values. -/
def jsonBeq : Json → Json → Bool
  | .null, .null => true
  | .bool a, .bool b => a == b
  | .num a, .num b => a == b
  | .str a, .str b => a == b
  | .arr xs, .arr ys => jsonListBeq xs ys
  | .obj xs, .obj ys => jsonObjBeq xs ys
  | _, _ => false

/-- Deep equality of JSON arrays. -/
def jsonListBeq : List Json → List Json → Bool
  | [], [] => true
  | x :: xs, y :: ys => jsonBeq x y && jsonListBeq xs ys
  | _, _ => false

/-- Deep equality of JSON object field lists. -/
def jsonObjBeq : List (String × Json) → List (String × Json) → Bool
  | [], [] => true
  | (k1, v1) :: xs, (k2, v2) :: ys =>
    k1 == k2 && jsonBeq v1 v2 && jsonObjBeq xs ys
  | _, _ => false

end

mutual

theorem jsonBeq_refl : ∀ x : Json, jsonBeq x x = true
  | .null => rfl
  | .bool b => by simp [jsonBeq]
  | .num n => by simp [jsonBeq]
  | .str s => by simp [jsonBeq]
  | .arr xs => by rw [jsonBeq]; exact jsonListBeq_refl xs
  | .obj xs => by rw [jsonBeq]; exact jsonObjBeq_refl xs

theorem jsonListBeq_refl : ∀ xs : List Json, jsonListBeq xs xs = true
  | [] => rfl
  | x :: xs => by rw [jsonListBeq]; simp [jsonBeq_refl x, jsonListBeq_refl xs]

theorem jsonObjBeq_refl : ∀ xs : List (String × Json),
    jsonObjBeq xs xs = true
  | [] => rfl
  | (k, v) :: xs => by
    rw [jsonObjBeq]; simp [jsonBeq_refl v, jsonObjBeq_refl xs]

end

/-- The classification emitted for one method after collecting instance
payloads from two environments. -/
structure MethodClassification where
  consistent_structure : Bool
  auto_updatable : Bool
  deriving DecidableEq, Repr

/-- Modelled from the spec: classification of a pair of environment
responses — normalize both payloads, then structurally compare; a match
is flagged `consistent_structure` and auto-updatable, a mismatch is
inconsistent and left for manual review. -/
def classifyResponses (a b : Json) : MethodClassification :=
  let same := jsonBeq (normalizeResponse a) (normalizeResponse b)
  { consistent_structure := same, auto_updatable := same }

/-- C6 -- response classification is a deterministic function of the
collected instance payloads: two environments whose normalized responses
are structurally identical are classified `consistent_structure = true`,
and two runs over identical instance payloads always produce identical
classifications. -/
theorem classifyResponses_spec :
    (∀ a b : Json, normalizeResponse a = normalizeResponse b →
      (classifyResponses a b).consistent_structure = true) ∧
    (∀ a b a' b' : Json, a = a' → b = b' →
      classifyResponses a b = classifyResponses a' b') := by
  constructor
  · intro a b h
    show jsonBeq (normalizeResponse a) (normalizeResponse b) = true
    rw [h]
    exact jsonBeq_refl _
  · intro a b a' b' ha hb
    rw [ha, hb]

/-- Witness for C6: two instance payloads that differ only in the
`address` field are classified with `consistent_structure = true`. -/
theorem classifyResponses_spec_witness :
    (classifyResponses
        (.obj [("address", .str "iaa1hkg6nkk2eg8key"), ("balance", .num 10)])
        (.obj [("address", .str "iaa1xt2ru7frzvetk"),
               ("balance", .num 10)])).consistent_structure = true :=
  classifyResponses_spec.1
    (.obj [("address", .str "iaa1hkg6nkk2eg8key"), ("balance", .num 10)])
    (.obj [("address", .str "iaa1xt2ru7frzvetk"), ("balance", .num 10)])
    rfl

/-! ## GitHub bot scripts: docs-issue sync and auto-PR (C1, C7, C8)

Sources: `.github/scripts/sync-docs-issues.js` (`DocsSyncManager`) and the
auto-PR-from-issues script (`AutoPRManager`).  Each script processes a
batch of work items; every per-item processor is wrapped in `try/catch`
whose `catch` increments `stats.errors` and returns normally, and `run`
exits with status 1 exactly when `stats.errors > 0` at the end. -/

/-- The running counters of both bot scripts. -/
structure Stats where
  processed : Nat
  created : Nat
  skipped : Nat
  errors : Nat
  deriving DecidableEq, Repr

/-- Fresh counters at the start of a run. -/
def Stats.zero : Stats := ⟨0, 0, 0, 0⟩

/-- `s.includes(sub)`: substring containment on JavaScript strings. -/
def strContains (s sub : String) : Bool := decide (sub.data <:+: s.data)

/-- A source-repository pull request as seen by `DocsSyncManager.processPR`:
its identity plus the properties that decide the control flow
(`hasTriggerLabel`/`isOpen` for the label-and-state check, `createFails`
for whether the issue-creation API sequence throws). -/
structure SyncPR where
  number : Nat
  html_url : String
  title : String
  hasTriggerLabel : Bool
  isOpen : Bool
  createFails : Bool
  deriving DecidableEq, Repr

/-- A tracking issue living in the target repository. -/
structure TargetIssue where
  number : Nat
  body : String
  deriving DecidableEq, Repr

/-- The state threaded through a docs-sync run: the target repository's
issues, the next issue number the API would assign, and the counters. -/
structure SyncState where
  issues : List TargetIssue
  nextIssueNumber : Nat
  stats : Stats
  deriving DecidableEq, Repr

/-- `DocsSyncManager`'s search term for a PR: the body text
`source-pr:<url>` that the GitHub search query quotes. -/
def searchTermFor (prHtmlUrl : String) : String := "source-pr:" ++ prHtmlUrl

/-- `DocsSyncManager.markerFor`: the HTML-comment marker
`<!-- source-pr:<url> -->` embedded in every created issue body. -/
def markerFor (prHtmlUrl : String) : String :=
  "<!-- " ++ searchTermFor prHtmlUrl ++ " -->"

/-- `DocsSyncManager.findExistingIssue`: search the target repository for
an issue whose body contains `source-pr:<url>`. -/
def findExistingIssue (issues : List TargetIssue) (prHtmlUrl : String) :
    Option TargetIssue :=
  issues.find? fun i => strContains i.body (searchTermFor prHtmlUrl)

/-- `DocsSyncManager.buildIssueBody`: the created issue body — the marker
is the first section and the non-empty sections are joined with newlines.
The dynamic method/file sections after the title line are abridged here;
they never contain the marker and do not affect the dedup search. -/
def buildIssueBody (pr : SyncPR) : String :=
  markerFor pr.html_url ++ "\n" ++
    ("### Source" ++ "\n" ++ ("- PR: " ++ pr.html_url) ++ "\n" ++
      ("- Title: **" ++ pr.title ++ "**") ++ "\n" ++
      "### Suggested docs tasks")

/-- `DocsSyncManager.processPR` (non-dry-run): bump `processed`; skip a PR
that lost its label or is closed; skip a PR with an existing tracked
issue; otherwise create the documentation issue, where any thrown error is
caught and counted in `errors` without propagating. -/
def processPR (st : SyncState) (pr : SyncPR) : SyncState :=
  let st1 := { st with stats.processed := st.stats.processed + 1 }
  if !(pr.hasTriggerLabel && pr.isOpen) then
    { st1 with stats.skipped := st1.stats.skipped + 1 }
  else
    match findExistingIssue st1.issues pr.html_url with
    | some _ => { st1 with stats.skipped := st1.stats.skipped + 1 }
    | none =>
      if pr.createFails then
        { st1 with stats.errors := st1.stats.errors + 1 }
      else
        { st1 with
          issues := st1.issues ++
            [⟨st1.nextIssueNumber, buildIssueBody pr⟩],
          nextIssueNumber := st1.nextIssueNumber + 1,
          stats.created := st1.stats.created + 1 }

/-- `DocsSyncManager.run`: process every candidate PR, then exit with
status 1 if any per-item error was counted and status 0 otherwise. -/
def runSync (prs : List SyncPR) (st : SyncState) : SyncState × Nat :=
  let final := prs.foldl processPR st
  (final, if final.stats.errors > 0 then 1 else 0)

/-- The condition under which `processPR` takes its error path from state
`st`: the PR is eligible, no tracked issue exists yet, and the creation
sequence throws. -/
def syncErrCond (st : SyncState) (pr : SyncPR) : Bool :=
  pr.hasTriggerLabel && pr.isOpen &&
    (findExistingIssue st.issues pr.html_url).isNone && pr.createFails

/-- The number of per-item errors a docs-sync run counts, following the
state through the batch. -/
def syncErrorCount : SyncState → List SyncPR → Nat
  | _, [] => 0
  | st, pr :: rest =>
    (if syncErrCond st pr then 1 else 0) + syncErrorCount (processPR st pr) rest

/-- An issue labeled for the auto-PR script, with the attributes deciding
`AutoPRManager.processIssue`'s control flow: the parsed method names, the
methods whose per-method documentation generation throws (caught
per-method), whether `git checkout -b` throws (no branch created yet),
whether a step after branch creation throws, and whether the catch-block
cleanup command itself fails. -/
structure AutoIssue where
  number : Nat
  title : String
  hasAutoPrLabel : Bool
  isOpen : Bool
  methods : List String
  failedMethods : List String
  branchCreateFails : Bool
  laterStepFails : Bool
  cleanupFails : Bool
  deriving DecidableEq, Repr

/-- The state threaded through an auto-PR run: the local git branches and
the counters. -/
structure AutoState where
  branches : List String
  stats : Stats
  deriving DecidableEq, Repr

/-- The branch name `auto-pr/issue-<n>` used for issue `n`. -/
def branchNameFor (issueNumber : Nat) : String :=
  "auto-pr/issue-" ++ toString issueNumber

/-- The documentation files successfully generated for an issue: the
parsed methods minus those whose generation threw (those failures are
caught per-method and only logged). -/
def generatedDocsFor (iss : AutoIssue) : List String :=
  iss.methods.filter fun m => m ∉ iss.failedMethods

/-- The catch-block cleanup `git checkout dev && git branch -D <branch>`:
best-effort deletion whose own failure is swallowed, leaving the branch
in place. -/
def cleanupBranch (branches : List String) (branch : String)
    (cleanupFails : Bool) : List String :=
  if cleanupFails then branches else branches.erase branch

/-- `AutoPRManager.processIssue` (non-dry-run): bump `processed`; skip an
ineligible issue, an issue without parsed methods, or one with no
generated docs; otherwise create the branch, commit, open the PR and
comment — any throw lands in the catch block, which counts the error,
attempts the best-effort branch cleanup (swallowing its failure) and
returns normally. -/
def processIssue (st : AutoState) (iss : AutoIssue) : AutoState :=
  let st1 := { st with stats.processed := st.stats.processed + 1 }
  if !(iss.hasAutoPrLabel && iss.isOpen) then
    { st1 with stats.skipped := st1.stats.skipped + 1 }
  else if iss.methods.isEmpty then
    { st1 with stats.skipped := st1.stats.skipped + 1 }
  else if (generatedDocsFor iss).isEmpty then
    { st1 with stats.skipped := st1.stats.skipped + 1 }
  else if iss.branchCreateFails then
    { st1 with
      branches := cleanupBranch st1.branches (branchNameFor iss.number)
        iss.cleanupFails,
      stats.errors := st1.stats.errors + 1 }
  else if iss.laterStepFails then
    { st1 with
      branches := cleanupBranch
        (st1.branches ++ [branchNameFor iss.number])
        (branchNameFor iss.number) iss.cleanupFails,
      stats.errors := st1.stats.errors + 1 }
  else
    { st1 with
      branches := st1.branches ++ [branchNameFor iss.number],
      stats.created := st1.stats.created + 1 }

/-- `AutoPRManager.run`: process every candidate issue, then exit with
status 1 if any per-item error was counted and status 0 otherwise. -/
def runAutoPR (issues : List AutoIssue) (st : AutoState) : AutoState × Nat :=
  let final := issues.foldl processIssue st
  (final, if final.stats.errors > 0 then 1 else 0)

/-- The condition under which `processIssue` takes its error path: the
issue is eligible with generated docs and either the branch creation or a
later step throws. -/
def autoErrCond (iss : AutoIssue) : Bool :=
  iss.hasAutoPrLabel && iss.isOpen && !iss.methods.isEmpty &&
    !(generatedDocsFor iss).isEmpty &&
    (iss.branchCreateFails || iss.laterStepFails)

theorem processPR_processed (st : SyncState) (pr : SyncPR) :
    (processPR st pr).stats.processed = st.stats.processed + 1 := by
  rw [processPR]
  dsimp only
  split
  · rfl
  · split
    · rfl
    · split
      · rfl
      · rfl

theorem foldl_processPR_processed (prs : List SyncPR) :
    ∀ st : SyncState, (prs.foldl processPR st).stats.processed =
      st.stats.processed + prs.length := by
  induction prs with
  | nil => intro st; simp
  | cons pr rest ih =>
    intro st
    rw [List.foldl_cons, ih, processPR_processed, List.length_cons]
    omega

theorem processPR_errors (st : SyncState) (pr : SyncPR) :
    (processPR st pr).stats.errors =
      st.stats.errors + (if syncErrCond st pr then 1 else 0) := by
  rw [processPR, syncErrCond]
  cases hl : pr.hasTriggerLabel && pr.isOpen with
  | false => simp [hl]
  | true =>
    cases hf : findExistingIssue st.issues pr.html_url with
    | some i => simp [hl, hf]
    | none =>
      cases hc : pr.createFails with
      | true => simp [hl, hf, hc]
      | false => simp [hl, hf, hc]

theorem foldl_processPR_errors (prs : List SyncPR) :
    ∀ st : SyncState, (prs.foldl processPR st).stats.errors =
      st.stats.errors + syncErrorCount st prs := by
  induction prs with
  | nil => intro st; simp [syncErrorCount]
  | cons pr rest ih =>
    intro st
    rw [List.foldl_cons, ih, processPR_errors, syncErrorCount]
    omega

theorem processIssue_processed (st : AutoState) (iss : AutoIssue) :
    (processIssue st iss).stats.processed = st.stats.processed + 1 := by
  rw [processIssue]
  dsimp only
  split
  · rfl
  · split
    · rfl
    · split
      · rfl
      · split
        · rfl
        · split
          · rfl
          · rfl

theorem foldl_processIssue_processed (issues : List AutoIssue) :
    ∀ st : AutoState, (issues.foldl processIssue st).stats.processed =
      st.stats.processed + issues.length := by
  induction issues with
  | nil => intro st; simp
  | cons iss rest ih =>
    intro st
    rw [List.foldl_cons, ih, processIssue_processed, List.length_cons]
    omega

theorem processIssue_errors (st : AutoState) (iss : AutoIssue) :
    (processIssue st iss).stats.errors =
      st.stats.errors + (if autoErrCond iss then 1 else 0) := by
  rw [processIssue, autoErrCond]
  cases hl : iss.hasAutoPrLabel && iss.isOpen with
  | false => simp [hl]
  | true =>
    cases hm : iss.methods.isEmpty with
    | true => simp [hl, hm]
    | false =>
      cases hd : (generatedDocsFor iss).isEmpty with
      | true => simp [hl, hm, hd]
      | false =>
        cases hb : iss.branchCreateFails with
        | true => simp [hl, hm, hd, hb]
        | false =>
          cases hs : iss.laterStepFails with
          | true => simp [hl, hm, hd, hb, hs]
          | false => simp [hl, hm, hd, hb, hs]

theorem foldl_processIssue_errors (issues : List AutoIssue) :
    ∀ st : AutoState, (issues.foldl processIssue st).stats.errors =
      st.stats.errors + issues.countP autoErrCond := by
  induction issues with
  | nil => intro st; simp
  | cons iss rest ih =>
    intro st
    rw [List.foldl_cons, ih, processIssue_errors, List.countP_cons]
    omega

/-- C1 -- in both bot scripts a failure while processing a single work
item increments `errors` and does not abort the batch (the whole batch is
still processed, so `processed` always equals the number of items), and
the run exits non-zero exactly when at least one per-item error was
counted (equivalently, a run with zero per-item errors exits with status
0). -/
theorem botScripts_error_spec :
    (∀ (st : SyncState) (pr : SyncPR), syncErrCond st pr = true →
      (processPR st pr).stats.errors = st.stats.errors + 1) ∧
    (∀ (prs : List SyncPR) (st : SyncState),
      (prs.foldl processPR st).stats.processed =
        st.stats.processed + prs.length) ∧
    (∀ (prs : List SyncPR) (st : SyncState), st.stats.errors = 0 →
      ((runSync prs st).2 ≠ 0 ↔ 0 < syncErrorCount st prs)) ∧
    (∀ (st : AutoState) (iss : AutoIssue), autoErrCond iss = true →
      (processIssue st iss).stats.errors = st.stats.errors + 1) ∧
    (∀ (issues : List AutoIssue) (st : AutoState),
      (issues.foldl processIssue st).stats.processed =
        st.stats.processed + issues.length) ∧
    (∀ (issues : List AutoIssue) (st : AutoState), st.stats.errors = 0 →
      ((runAutoPR issues st).2 ≠ 0 ↔ 0 < issues.countP autoErrCond)) := by
  refine ⟨?_, foldl_processPR_processed, ?_, ?_,
    foldl_processIssue_processed, ?_⟩
  · intro st pr h
    rw [processPR_errors, h]
    simp
  · intro prs st h0
    rw [runSync]
    dsimp only
    rw [foldl_processPR_errors, h0]
    constructor
    · intro hne
      by_contra hc
      push_neg at hc
      interval_cases h : syncErrorCount st prs
      simp at hne
    · intro hpos
      have : (0 : Nat) + syncErrorCount st prs > 0 := by omega
      simp only [this, if_pos]
      omega
  · intro st iss h
    rw [processIssue_errors, h]
    simp
  · intro issues st h0
    rw [runAutoPR]
    dsimp only
    rw [foldl_processIssue_errors, h0]
    constructor
    · intro hne
      by_contra hc
      push_neg at hc
      interval_cases h : issues.countP autoErrCond
      simp at hne
    · intro hpos
      have : (0 : Nat) + issues.countP autoErrCond > 0 := by omega
      simp only [this, if_pos]
      omega

/-- A fresh docs-sync state: no tracked issues yet, zero counters. -/
def syncState0 : SyncState := ⟨[], 1, Stats.zero⟩

/-- A labeled open PR whose issue-creation step throws. -/
def failingPR : SyncPR :=
  ⟨42, "https://github.com/KomodoPlatform/komodo-defi-framework/pull/42",
    "Add RPC method", true, true, true⟩

/-- Witness for C1: processing the single failing PR counts one error and
makes the run exit non-zero. -/
theorem botScripts_error_spec_witness :
    (processPR syncState0 failingPR).stats.errors =
      syncState0.stats.errors + 1 ∧
    (runSync [failingPR] syncState0).2 ≠ 0 := by
  constructor
  · exact botScripts_error_spec.1 syncState0 failingPR (by decide)
  · exact (botScripts_error_spec.2.2.1 [failingPR] syncState0 rfl).mpr
      (by decide)

/-- C7 -- when processing of an eligible issue fails after its
`auto-pr/issue-N` branch has been created, there is no transactional
rollback: the catch block counts the error, attempts only a best-effort
deletion of the branch, swallows a failure of that cleanup (leaving the
branch dangling), removes the branch when the cleanup succeeds, and the
run continues processing all remaining issues. -/
theorem processIssue_no_rollback (st : AutoState) (iss : AutoIssue)
    (hlabel : iss.hasAutoPrLabel = true) (hopen : iss.isOpen = true)
    (hm : iss.methods.isEmpty = false)
    (hd : (generatedDocsFor iss).isEmpty = false)
    (hb : iss.branchCreateFails = false)
    (hl : iss.laterStepFails = true) :
    (processIssue st iss).stats.errors = st.stats.errors + 1 ∧
    (iss.cleanupFails = true →
      branchNameFor iss.number ∈ (processIssue st iss).branches) ∧
    (iss.cleanupFails = false →
      branchNameFor iss.number ∉ st.branches →
      (processIssue st iss).branches = st.branches) ∧
    (∀ rest : List AutoIssue,
      (rest.foldl processIssue (processIssue st iss)).stats.processed =
        st.stats.processed + 1 + rest.length) := by
  have hbranch : processIssue st iss =
      { st with
        branches := cleanupBranch
          (st.branches ++ [branchNameFor iss.number])
          (branchNameFor iss.number) iss.cleanupFails,
        stats.processed := st.stats.processed + 1,
        stats.errors := st.stats.errors + 1 } := by
    rw [processIssue]
    simp [hlabel, hopen, hm, hd, hb, hl]
  refine ⟨by rw [hbranch], ?_, ?_, ?_⟩
  · intro hcf
    rw [hbranch]
    show branchNameFor iss.number ∈
      cleanupBranch (st.branches ++ [branchNameFor iss.number])
        (branchNameFor iss.number) iss.cleanupFails
    rw [cleanupBranch, hcf, if_pos rfl]
    exact List.mem_append_right _ (by simp)
  · intro hcf hnotin
    rw [hbranch]
    show cleanupBranch (st.branches ++ [branchNameFor iss.number])
      (branchNameFor iss.number) iss.cleanupFails = st.branches
    rw [cleanupBranch, hcf]
    simp only [Bool.false_eq_true, if_false]
    rw [List.erase_append_right _ hnotin, List.erase_cons_head,
      List.append_nil]
  · intro rest
    rw [foldl_processIssue_processed, processIssue_processed]

/-- An eligible issue whose PR-creation step throws after the branch was
created and whose cleanup command also fails. -/
def danglingIssue : AutoIssue :=
  { number := 7, title := "Document task::enable_utxo::init",
    hasAutoPrLabel := true, isOpen := true,
    methods := ["task::enable_utxo::init"], failedMethods := [],
    branchCreateFails := false, laterStepFails := true,
    cleanupFails := true }

/-- A fresh auto-PR state. -/
def autoState0 : AutoState := ⟨["dev"], Stats.zero⟩

/-- Witness for C7: processing `danglingIssue` from the fresh state leaves
the branch `auto-pr/issue-7` dangling and counts one error. -/
theorem processIssue_no_rollback_witness :
    (processIssue autoState0 danglingIssue).stats.errors =
      autoState0.stats.errors + 1 ∧
    branchNameFor danglingIssue.number ∈
      (processIssue autoState0 danglingIssue).branches := by
  have h := processIssue_no_rollback autoState0 danglingIssue rfl rfl rfl
    (by decide) rfl rfl
  exact ⟨h.1, h.2.1 rfl⟩

theorem strContains_buildIssueBody (pr : SyncPR) :
    strContains (buildIssueBody pr) (searchTermFor pr.html_url) = true := by
  rw [strContains, decide_eq_true_iff]
  refine ⟨"<!-- ".data,
    (" -->" ++ "\n" ++
      ("### Source" ++ "\n" ++ ("- PR: " ++ pr.html_url) ++ "\n" ++
        ("- Title: **" ++ pr.title ++ "**") ++ "\n" ++
        "### Suggested docs tasks")).data, ?_⟩
  simp only [buildIssueBody, markerFor, String.data_append,
    List.append_assoc]

theorem findExistingIssue_append_created (issues : List TargetIssue)
    (pr : SyncPR) (n : Nat) :
    (findExistingIssue (issues ++ [⟨n, buildIssueBody pr⟩])
      pr.html_url).isSome = true := by
  rw [findExistingIssue, List.find?_append]
  cases hfind : issues.find? fun i =>
      strContains i.body (searchTermFor pr.html_url) with
  | some i => simp
  | none => simp [List.find?, strContains_buildIssueBody pr]

/-- C8 -- the docs-issue sync creates at most one tracking issue per
source PR: a successful creation embeds the `source-pr` marker in the new
issue's body, so (the search reflecting the created issue) a second
`processPR` on the same PR finds the existing issue, creates nothing,
changes no issue, and counts the PR as skipped. -/
theorem processPR_dedup (st : SyncState) (pr : SyncPR)
    (hlabel : pr.hasTriggerLabel = true) (hopen : pr.isOpen = true)
    (hnone : findExistingIssue st.issues pr.html_url = none)
    (hok : pr.createFails = false) :
    (processPR st pr).stats.created = st.stats.created + 1 ∧
    (findExistingIssue (processPR st pr).issues pr.html_url).isSome =
      true ∧
    (processPR (processPR st pr) pr).issues = (processPR st pr).issues ∧
    (processPR (processPR st pr) pr).stats.created =
      (processPR st pr).stats.created ∧
    (processPR (processPR st pr) pr).stats.skipped =
      (processPR st pr).stats.skipped + 1 := by
  have hfirst : processPR st pr =
      { st with
        issues := st.issues ++ [⟨st.nextIssueNumber, buildIssueBody pr⟩],
        nextIssueNumber := st.nextIssueNumber + 1,
        stats.processed := st.stats.processed + 1,
        stats.created := st.stats.created + 1 } := by
    rw [processPR]
    simp [hlabel, hopen, hnone, hok]
  have hsome : (findExistingIssue (processPR st pr).issues
      pr.html_url).isSome = true := by
    rw [hfirst]
    exact findExistingIssue_append_created st.issues pr st.nextIssueNumber
  refine ⟨by rw [hfirst], hsome, ?_⟩
  obtain ⟨i, hi⟩ := Option.isSome_iff_exists.mp hsome
  have hsecond : processPR (processPR st pr) pr =
      { processPR st pr with
        stats.processed := (processPR st pr).stats.processed + 1,
        stats.skipped := (processPR st pr).stats.skipped + 1 } := by
    rw [show processPR (processPR st pr) pr =
        processPR (processPR st pr) pr from rfl]
    rw [processPR]
    simp [hlabel, hopen, hi]
  rw [hsecond]
  exact ⟨rfl, rfl, rfl⟩

/-- A labeled open PR whose issue creation succeeds. -/
def okPR : SyncPR :=
  ⟨101, "https://github.com/KomodoPlatform/komodo-defi-framework/pull/101",
    "Add new wallet RPC", true, true, false⟩

/-- Witness for C8: after a successful first `processPR` of `okPR`, a
second `processPR` of the same PR creates nothing and counts a skip. -/
theorem processPR_dedup_witness :
    (processPR syncState0 okPR).stats.created =
      syncState0.stats.created + 1 ∧
    (processPR (processPR syncState0 okPR) okPR).issues =
      (processPR syncState0 okPR).issues ∧
    (processPR (processPR syncState0 okPR) okPR).stats.created =
      (processPR syncState0 okPR).stats.created := by
  have h := processPR_dedup syncState0 okPR rfl rfl rfl rfl
  exact ⟨h.1, h.2.2.1, h.2.2.2.1⟩

/-! ## Sidebar maintenance scripts (C9)

Sources: the cleanup script (`cleanup-sidebar`) and the auto-add script
(`auto-add-sidebar`) in `utils/js`, both operating on
`src/data/sidebar.json`. -/

/-- One link entry of a sidebar section. -/
structure SLink where
  title : String
  href : String
  deriving DecidableEq, Repr

/-- One sidebar section: a title, an optional title link, and an optional
links array. -/
structure SSection where
  title : String
  titleLink : Option String
  links : Option (List SLink)
  deriving DecidableEq, Repr

/-- One navigation of sidebar.json: base path to section list. -/
abbrev SidebarNav := List (String × List SSection)

/-- The whole sidebar.json object: navigation key to navigation. -/
abbrev Sidebar := List (String × SidebarNav)

/-- `NAV_ROOT` of the auto-add script. -/
def navRootKey : String := "komodefiApi20MasterPageNavigation"

/-- `V20_ROOT_KEY` of the auto-add script. -/
def v20RootKey : String := "/komodo-defi-framework/api/v20/"

/-- `V20_WALLET_PREFIX` of the auto-add script (the leading part every
auto-added href must carry). -/
def v20WalletHrefStart : String := "/komodo-defi-framework/api/v20/wallet/"

/-- `TARGET_SECTION_TITLE` of the auto-add script. -/
def targetSectionTitle : String := "Wallet"

/-- Property lookup on a JSON-object association list. -/
def lookupKey {β : Type} (k : String) (m : List (String × β)) : Option β :=
  (m.find? fun p => p.1 = k).map (·.2)

/-- In-place mutation of the value found by `lookupKey`: apply `f` to the
first entry with key `k`. -/
def updateFirst {β : Type} (k : String) (f : β → β) :
    List (String × β) → List (String × β)
  | [] => []
  | p :: rest =>
    if p.1 = k then (p.1, f p.2) :: rest else p :: updateFirst k f rest

/-- The cleanup script's filter condition: a wallet link whose href starts
with `src/pages/` is bad and gets removed. -/
def isBadWalletLink (l : SLink) : Bool := jsStartsWith l.href "src/pages/"

/-- One iteration of the cleanup loop: a `Wallet` section with a links
array keeps only its non-bad links; every other section is untouched. -/
def cleanupSection (s : SSection) : SSection :=
  if s.title = targetSectionTitle then
    match s.links with
    | some ls => { s with links := some (ls.filter fun l => !isBadWalletLink l) }
    | none => s
  else s

/-- How many links the cleanup loop removes from one section. -/
def sectionRemovedCount (s : SSection) : Nat :=
  if s.title = targetSectionTitle then
    match s.links with
    | some ls => (ls.filter isBadWalletLink).length
    | none => 0
  else 0

/-- The cleanup script's `main`: if the v20 navigation exists, filter the
bad links out of every `Wallet` section and count the removals; the file
is rewritten only when `removed > 0`. -/
def cleanupSidebar (sb : Sidebar) : Sidebar × Nat :=
  match lookupKey navRootKey sb with
  | none => (sb, 0)
  | some nav =>
    match lookupKey v20RootKey nav with
    | none => (sb, 0)
    | some sections =>
      ((updateFirst navRootKey
          (updateFirst v20RootKey (List.map cleanupSection)) sb),
        (sections.map sectionRemovedCount).sum)

/-- `collectAllPageHrefsFromSidebar`: every truthy `titleLink` and every
truthy link href anywhere in the sidebar. -/
def collectAllPageHrefsFromSidebar (sb : Sidebar) : List String :=
  sb.flatMap fun nav =>
    nav.2.flatMap fun basePath =>
      basePath.2.flatMap fun s =>
        (match s.titleLink with
         | some t => if t ≠ "" then [t] else []
         | none => []) ++
        (match s.links with
         | some ls => (ls.filter fun l => l.href ≠ "").map (·.href)
         | none => [])

/-- `ensureTrailingSlash`. -/
def ensureTrailingSlash (s : String) : String :=
  if jsEndsWith s "/" then s else s ++ "/"

/-- `deriveTitleFromHref`: the last non-empty path segment, or the href
itself when there is none. -/
def deriveTitleFromHref (href : String) : String :=
  let parts := (jsSplit '/' href).filter fun p => p ≠ ""
  match parts.getLast? with
  | some t => t
  | none => href

/-- `findWalletSection` succeeds: some section titled `Wallet` carries a
links array. -/
def hasWalletSection (sections : List SSection) : Bool :=
  sections.any fun s => s.title = targetSectionTitle && s.links.isSome

/-- Push the additions onto the links array of the first `Wallet` section
(the one `findWalletSection` returned a live reference to). -/
def addLinksToWalletSection (additions : List SLink) :
    List SSection → List SSection
  | [] => []
  | s :: rest =>
    if s.title = targetSectionTitle ∧ s.links.isSome then
      { s with links := some (s.links.getD [] ++ additions) } :: rest
    else s :: addLinksToWalletSection additions rest

/-- One iteration of the auto-add loop over the argument hrefs: trim, add
a trailing slash, skip a non-wallet href, skip an href already in the
`allSidebarHrefs` set (collected once, before any mutation), otherwise
push a new link. -/
def autoAddStep (allSidebarHrefs : List String) (additions : List SLink)
    (rawHref : String) : List SLink :=
  let href := ensureTrailingSlash (jsTrim rawHref)
  if !jsStartsWith href v20WalletHrefStart then additions
  else if allSidebarHrefs.contains href then additions
  else additions ++ [⟨deriveTitleFromHref href, href⟩]

/-- The links the auto-add script pushes during one invocation. -/
def autoAddAdditions (sb : Sidebar) (args : List String) : List SLink :=
  args.foldl (autoAddStep (collectAllPageHrefsFromSidebar sb)) []

/-- The auto-add script's `main`: with no arguments, or without the v20
navigation or a `Wallet` section, nothing changes; otherwise the computed
additions are pushed onto the first `Wallet` section's links, and the file
is rewritten only when at least one link was added. -/
def autoAddSidebar (sb : Sidebar) (args : List String) :
    Sidebar × List SLink :=
  if args.isEmpty then (sb, [])
  else
    match lookupKey navRootKey sb with
    | none => (sb, [])
    | some nav =>
      match lookupKey v20RootKey nav with
      | none => (sb, [])
      | some sections =>
        if !hasWalletSection sections then (sb, [])
        else
          let additions := autoAddAdditions sb args
          (updateFirst navRootKey
              (updateFirst v20RootKey (addLinksToWalletSection additions))
              sb,
            additions)

/-- A sidebar with an empty `Wallet` section under the v20 navigation. -/
def walletSidebar : Sidebar :=
  [(navRootKey, [(v20RootKey,
    [{ title := "Wallet", titleLink := none, links := some [] }])])]

/-- A wallet href. -/
def dupHref : String := "/komodo-defi-framework/api/v20/wallet/fetch_utxos/"

/-- Counterexample for C9 as stated: the auto-add script checks membership
against the href set collected before any mutation, so passing the same
new wallet href twice in one invocation appends it twice — a duplicate
href in the sidebar. -/
theorem autoAddSidebar_cex :
    (autoAddSidebar walletSidebar [dupHref, dupHref]).1 =
      [(navRootKey, [(v20RootKey,
        [{ title := "Wallet", titleLink := none,
           links := some [⟨"fetch_utxos", dupHref⟩,
             ⟨"fetch_utxos", dupHref⟩] }])])] := by
  set_option maxRecDepth 4000 in decide


theorem lookupKey_updateFirst_self {β : Type} (k : String) (f : β → β) :
    ∀ m : List (String × β),
      lookupKey k (updateFirst k f m) = (lookupKey k m).map f := by
  intro m
  induction m with
  | nil => rfl
  | cons p rest ih =>
    by_cases hp : p.1 = k
    · simp [updateFirst, lookupKey, List.find?, hp]
    · simp only [updateFirst, if_neg hp]
      simp only [lookupKey, List.find?] at ih ⊢
      simp [hp, ih]

theorem lookupKey_updateFirst_other {β : Type} (k k' : String)
    (h : k' ≠ k) (f : β → β) :
    ∀ m : List (String × β),
      lookupKey k' (updateFirst k f m) = lookupKey k' m := by
  intro m
  induction m with
  | nil => rfl
  | cons p rest ih =>
    by_cases hp : p.1 = k
    · have hp' : p.1 ≠ k' := by rw [hp]; exact fun he => h he.symm
      simp [updateFirst, lookupKey, List.find?, hp, hp', Ne.symm h]
    · simp only [updateFirst, if_neg hp]
      simp only [lookupKey, List.find?] at ih ⊢
      by_cases hq : p.1 = k'
      · simp [hq]
      · simp [hq, ih]

theorem updateFirst_eq_of_fix {β : Type} (k : String) (f : β → β) :
    ∀ m : List (String × β),
      (∀ v, lookupKey k m = some v → f v = v) → updateFirst k f m = m := by
  intro m
  induction m with
  | nil => intro _; rfl
  | cons p rest ih =>
    intro hfix
    by_cases hp : p.1 = k
    · have : f p.2 = p.2 := by
        apply hfix
        simp [lookupKey, List.find?, hp]
      rw [updateFirst, if_pos hp, this]
    · rw [updateFirst, if_neg hp]
      rw [ih]
      intro v hv
      apply hfix
      simp only [lookupKey, List.find?] at hv ⊢
      simp only [hp]
      simpa using hv

theorem cleanupSection_of_removed_zero (s : SSection)
    (h : sectionRemovedCount s = 0) : cleanupSection s = s := by
  rw [sectionRemovedCount] at h
  rw [cleanupSection]
  by_cases ht : s.title = targetSectionTitle
  · rw [if_pos ht]
    rw [if_pos ht] at h
    cases hls : s.links with
    | none => rfl
    | some ls =>
      rw [hls] at h
      dsimp only at h ⊢
      have hnil : ls.filter isBadWalletLink = [] := List.length_eq_zero.mp h
      have hall : ∀ l ∈ ls, isBadWalletLink l = false := by
        intro l hl
        cases hb : isBadWalletLink l with
        | false => rfl
        | true =>
          have hmem : l ∈ ls.filter isBadWalletLink :=
            List.mem_filter.mpr ⟨hl, hb⟩
          rw [hnil] at hmem
          cases hmem
      have hfilter : ls.filter (fun l => !isBadWalletLink l) = ls := by
        apply List.filter_eq_self.mpr
        intro l hl
        rw [hall l hl]
        rfl
      rw [hfilter]
      cases s with
      | mk title titleLink links =>
        dsimp only at hls
        rw [hls]
  · rw [if_neg ht]

theorem cleanupSidebar_removed_zero (sb : Sidebar)
    (h : (cleanupSidebar sb).2 = 0) : (cleanupSidebar sb).1 = sb := by
  rw [cleanupSidebar] at h ⊢
  cases hnav : lookupKey navRootKey sb with
  | none => rfl
  | some nav =>
    rw [hnav] at h
    dsimp only at h ⊢
    cases hsec : lookupKey v20RootKey nav with
    | none => rfl
    | some sections =>
      rw [hsec] at h
      dsimp only at h ⊢
      have hz : ∀ x ∈ sections.map sectionRemovedCount, x = 0 :=
        List.sum_eq_zero_iff.mp h
      have hsecfix : sections.map cleanupSection = sections := by
        have : ∀ s ∈ sections, cleanupSection s = s := by
          intro s hs
          exact cleanupSection_of_removed_zero s
            (hz _ (List.mem_map_of_mem _ hs))
        calc sections.map cleanupSection = sections.map id :=
              List.map_congr_left this
          _ = sections := List.map_id sections
      apply updateFirst_eq_of_fix
      intro v hv
      rw [hnav] at hv
      injection hv with hv
      subst hv
      apply updateFirst_eq_of_fix
      intro v hv
      rw [hsec] at hv
      injection hv with hv
      subst hv
      exact hsecfix

theorem addLinksToWalletSection_nil : ∀ sections : List SSection,
    addLinksToWalletSection [] sections = sections
  | [] => rfl
  | s :: rest => by
    rw [addLinksToWalletSection]
    split
    · next hcond =>
      obtain ⟨ht, hsome⟩ := hcond
      obtain ⟨ls, hls⟩ := Option.isSome_iff_exists.mp hsome
      rw [hls]
      dsimp only [Option.getD]
      rw [List.append_nil]
      cases s with
      | mk title titleLink links =>
        dsimp only at hls
        rw [hls]
    · rw [addLinksToWalletSection_nil rest]

theorem addLinksToWalletSection_shape (adds : List SLink) :
    ∀ (pre : List SSection) (w : SSection) (ls : List SLink)
      (post : List SSection),
      (∀ s ∈ pre, ¬(s.title = targetSectionTitle ∧ s.links.isSome = true)) →
      w.title = targetSectionTitle → w.links = some ls →
      addLinksToWalletSection adds (pre ++ w :: post) =
        pre ++ { w with links := some (ls ++ adds) } :: post
  | [], w, ls, post => by
    intro _ ht hls
    rw [List.nil_append, addLinksToWalletSection]
    have hcond : w.title = targetSectionTitle ∧ w.links.isSome = true :=
      ⟨ht, by rw [hls]; rfl⟩
    rw [if_pos hcond, hls]
    rfl
  | p :: pre, w, ls, post => by
    intro hpre ht hls
    rw [List.cons_append, addLinksToWalletSection]
    have hnp := hpre p (List.mem_cons_self p pre)
    rw [if_neg hnp]
    rw [addLinksToWalletSection_shape adds pre w ls post
      (fun s hs => hpre s (List.mem_cons_of_mem _ hs)) ht hls]
    rw [List.cons_append]

theorem autoAddStep_mem_aux (all : List String) :
    ∀ (args : List String) (acc : List SLink) (l : SLink),
      l ∈ args.foldl (autoAddStep all) acc →
      l ∈ acc ∨ (jsStartsWith l.href v20WalletHrefStart = true ∧
        all.contains l.href = false) := by
  intro args
  induction args with
  | nil => intro acc l h; exact Or.inl h
  | cons a rest ih =>
    intro acc l h
    rw [List.foldl_cons] at h
    rcases ih _ l h with hacc | hgood
    · rw [autoAddStep] at hacc
      split at hacc
      · exact Or.inl hacc
      · rename_i hns
        split at hacc
        · exact Or.inl hacc
        · rename_i hnc
          rcases List.mem_append.mp hacc with h1 | h2
          · exact Or.inl h1
          · have hl : l = ⟨deriveTitleFromHref (ensureTrailingSlash (jsTrim a)),
                ensureTrailingSlash (jsTrim a)⟩ := by
              simpa using h2
            subst hl
            refine Or.inr ⟨?_, ?_⟩
            · simpa using hns
            · simpa using hnc
    · exact Or.inr hgood

theorem cleanupSidebar_eq (sb : Sidebar) (nav : SidebarNav)
    (sections : List SSection)
    (hnav : lookupKey navRootKey sb = some nav)
    (hsec : lookupKey v20RootKey nav = some sections) :
    cleanupSidebar sb =
      (updateFirst navRootKey
        (updateFirst v20RootKey (List.map cleanupSection)) sb,
       (sections.map sectionRemovedCount).sum) := by
  rw [cleanupSidebar, hnav]
  dsimp only
  rw [hsec]

theorem cleanupSidebar_cases (sb : Sidebar) :
    (cleanupSidebar sb).1 = sb ∨
    cleanupSidebar sb =
      (updateFirst navRootKey
        (updateFirst v20RootKey (List.map cleanupSection)) sb,
       (cleanupSidebar sb).2) := by
  rw [cleanupSidebar]
  cases hnav : lookupKey navRootKey sb with
  | none => exact Or.inl rfl
  | some nav =>
    dsimp only
    cases hsec : lookupKey v20RootKey nav with
    | none => exact Or.inl rfl
    | some sections => exact Or.inr rfl

theorem autoAddSidebar_eq (sb : Sidebar) (args : List String)
    (nav : SidebarNav) (sections : List SSection)
    (hargs : args.isEmpty = false)
    (hnav : lookupKey navRootKey sb = some nav)
    (hsec : lookupKey v20RootKey nav = some sections)
    (hw : hasWalletSection sections = true) :
    autoAddSidebar sb args =
      (updateFirst navRootKey
        (updateFirst v20RootKey
          (addLinksToWalletSection (autoAddAdditions sb args))) sb,
       autoAddAdditions sb args) := by
  rw [autoAddSidebar, hargs, hnav]
  dsimp only
  rw [hsec]
  dsimp only
  rw [hw]
  simp

theorem autoAddSidebar_cases (sb : Sidebar) (args : List String) :
    ((autoAddSidebar sb args).1 = sb ∧ (autoAddSidebar sb args).2 = []) ∨
    autoAddSidebar sb args =
      (updateFirst navRootKey
        (updateFirst v20RootKey
          (addLinksToWalletSection (autoAddAdditions sb args))) sb,
       autoAddAdditions sb args) := by
  cases hargs : args.isEmpty with
  | true =>
    left
    rw [autoAddSidebar, hargs]
    exact ⟨rfl, rfl⟩
  | false =>
    cases hnav : lookupKey navRootKey sb with
    | none =>
      left
      rw [autoAddSidebar, hargs, hnav]
      simp
    | some nav =>
      cases hsec : lookupKey v20RootKey nav with
      | none =>
        left
        rw [autoAddSidebar, hargs, hnav]
        dsimp only
        rw [hsec]
        simp
      | some sections =>
        cases hw : hasWalletSection sections with
        | false =>
          left
          rw [autoAddSidebar, hargs, hnav]
          dsimp only
          rw [hsec]
          dsimp only
          rw [hw]
          simp
        | true =>
          right
          exact autoAddSidebar_eq sb args nav sections hargs hnav hsec hw

/-- C9 (amended) -- both sidebar scripts touch only the links arrays of
`Wallet` sections under the v20 navigation of sidebar.json: every other
navigation key and base path is unchanged, non-`Wallet` sections are
unchanged, and a `Wallet` section keeps its title and titleLink.  The
cleanup script removes exactly the links whose href starts with
`src/pages/` and leaves the file untouched when nothing was removed.  The
auto-add script appends, to the first `Wallet` section, only hrefs that
start with the wallet path and were not present anywhere in the sidebar
as read at the start of the run (the same new href passed twice in one
invocation is, however, appended twice), and leaves the file untouched
when nothing was added. -/
theorem sidebarScripts_spec :
    (∀ (sb : Sidebar) (k : String), k ≠ navRootKey →
      lookupKey k (cleanupSidebar sb).1 = lookupKey k sb) ∧
    (∀ (sb : Sidebar) (nav : SidebarNav) (sections : List SSection),
      lookupKey navRootKey sb = some nav →
      lookupKey v20RootKey nav = some sections →
      lookupKey navRootKey (cleanupSidebar sb).1 =
        some (updateFirst v20RootKey (List.map cleanupSection) nav) ∧
      (∀ k, k ≠ v20RootKey →
        lookupKey k
            (updateFirst v20RootKey (List.map cleanupSection) nav) =
          lookupKey k nav) ∧
      lookupKey v20RootKey
          (updateFirst v20RootKey (List.map cleanupSection) nav) =
        some (sections.map cleanupSection)) ∧
    (∀ s : SSection,
      (cleanupSection s).title = s.title ∧
      (cleanupSection s).titleLink = s.titleLink ∧
      (s.title ≠ targetSectionTitle → cleanupSection s = s) ∧
      (∀ ls, s.title = targetSectionTitle → s.links = some ls →
        (cleanupSection s).links =
          some (ls.filter fun l => !isBadWalletLink l))) ∧
    (∀ sb : Sidebar, (cleanupSidebar sb).2 = 0 →
      (cleanupSidebar sb).1 = sb) ∧
    (∀ (sb : Sidebar) (args : List String),
      ∀ l ∈ (autoAddSidebar sb args).2,
        jsStartsWith l.href v20WalletHrefStart = true ∧
        (collectAllPageHrefsFromSidebar sb).contains l.href = false) ∧
    (∀ (sb : Sidebar) (args : List String) (k : String), k ≠ navRootKey →
      lookupKey k (autoAddSidebar sb args).1 = lookupKey k sb) ∧
    (∀ (sb : Sidebar) (args : List String) (nav : SidebarNav)
        (sections : List SSection),
      args.isEmpty = false →
      lookupKey navRootKey sb = some nav →
      lookupKey v20RootKey nav = some sections →
      hasWalletSection sections = true →
      lookupKey navRootKey (autoAddSidebar sb args).1 =
        some (updateFirst v20RootKey
          (addLinksToWalletSection (autoAddAdditions sb args)) nav) ∧
      (∀ k, k ≠ v20RootKey →
        lookupKey k (updateFirst v20RootKey
            (addLinksToWalletSection (autoAddAdditions sb args)) nav) =
          lookupKey k nav) ∧
      lookupKey v20RootKey (updateFirst v20RootKey
          (addLinksToWalletSection (autoAddAdditions sb args)) nav) =
        some (addLinksToWalletSection (autoAddAdditions sb args)
          sections)) ∧
    (∀ (adds : List SLink) (pre : List SSection) (w : SSection)
        (ls : List SLink) (post : List SSection),
      (∀ s ∈ pre,
        ¬(s.title = targetSectionTitle ∧ s.links.isSome = true)) →
      w.title = targetSectionTitle → w.links = some ls →
      addLinksToWalletSection adds (pre ++ w :: post) =
        pre ++ { w with links := some (ls ++ adds) } :: post) ∧
    (∀ (sb : Sidebar) (args : List String),
      (autoAddSidebar sb args).2 = [] →
      (autoAddSidebar sb args).1 = sb) := by
  refine ⟨?_, ?_, ?_, cleanupSidebar_removed_zero, ?_, ?_, ?_,
    addLinksToWalletSection_shape, ?_⟩
  · intro sb k hk
    rcases cleanupSidebar_cases sb with h | h
    · rw [h]
    · rw [show (cleanupSidebar sb).1 =
          updateFirst navRootKey
            (updateFirst v20RootKey (List.map cleanupSection)) sb from
          congrArg Prod.fst h]
      exact lookupKey_updateFirst_other navRootKey k hk _ sb
  · intro sb nav sections hnav hsec
    have heq := cleanupSidebar_eq sb nav sections hnav hsec
    refine ⟨?_, ?_, ?_⟩
    · rw [show (cleanupSidebar sb).1 =
          updateFirst navRootKey
            (updateFirst v20RootKey (List.map cleanupSection)) sb from
          congrArg Prod.fst heq]
      rw [lookupKey_updateFirst_self, hnav]
      rfl
    · intro k hk
      exact lookupKey_updateFirst_other v20RootKey k hk _ nav
    · rw [lookupKey_updateFirst_self, hsec]
      rfl
  · intro s
    refine ⟨?_, ?_, ?_, ?_⟩
    · rw [cleanupSection]
      split
      · split <;> rfl
      · rfl
    · rw [cleanupSection]
      split
      · split <;> rfl
      · rfl
    · intro ht
      rw [cleanupSection, if_neg ht]
    · intro ls ht hls
      rw [cleanupSection, if_pos ht, hls]
  · intro sb args l hl
    rcases autoAddSidebar_cases sb args with ⟨-, h2⟩ | h
    · rw [h2] at hl
      cases hl
    · rw [show (autoAddSidebar sb args).2 = autoAddAdditions sb args from
        congrArg Prod.snd h] at hl
      rcases autoAddStep_mem_aux (collectAllPageHrefsFromSidebar sb) args
          [] l hl with hnil | hgood
      · cases hnil
      · exact hgood
  · intro sb args k hk
    rcases autoAddSidebar_cases sb args with ⟨h1, -⟩ | h
    · rw [h1]
    · rw [show (autoAddSidebar sb args).1 =
          updateFirst navRootKey
            (updateFirst v20RootKey
              (addLinksToWalletSection (autoAddAdditions sb args))) sb from
          congrArg Prod.fst h]
      exact lookupKey_updateFirst_other navRootKey k hk _ sb
  · intro sb args nav sections hargs hnav hsec hw
    have heq := autoAddSidebar_eq sb args nav sections hargs hnav hsec hw
    refine ⟨?_, ?_, ?_⟩
    · rw [show (autoAddSidebar sb args).1 =
          updateFirst navRootKey
            (updateFirst v20RootKey
              (addLinksToWalletSection (autoAddAdditions sb args))) sb from
          congrArg Prod.fst heq]
      rw [lookupKey_updateFirst_self, hnav]
      rfl
    · intro k hk
      exact lookupKey_updateFirst_other v20RootKey k hk _ nav
    · rw [lookupKey_updateFirst_self, hsec]
      rfl
  · intro sb args h2
    rcases autoAddSidebar_cases sb args with ⟨h1, -⟩ | h
    · exact h1
    · have hadds : autoAddAdditions sb args = [] := by
        rw [show (autoAddSidebar sb args).2 = autoAddAdditions sb args from
          congrArg Prod.snd h] at h2
        exact h2
      rw [show (autoAddSidebar sb args).1 =
          updateFirst navRootKey
            (updateFirst v20RootKey
              (addLinksToWalletSection (autoAddAdditions sb args))) sb from
          congrArg Prod.fst h]
      rw [hadds]
      apply updateFirst_eq_of_fix
      intro v _
      apply updateFirst_eq_of_fix
      intro v' _
      exact addLinksToWalletSection_nil v'

/-- Witness for C9 (amended): the cleanup script leaves `walletSidebar`
(which has no bad links) untouched, and the auto-added link for `dupHref`
indeed carries the wallet path. -/
theorem sidebarScripts_spec_witness :
    (cleanupSidebar walletSidebar).1 = walletSidebar ∧
    jsStartsWith dupHref v20WalletHrefStart = true := by
  constructor
  · exact sidebarScripts_spec.2.2.2.1 walletSidebar
      (by set_option maxRecDepth 4000 in decide)
  · exact (sidebarScripts_spec.2.2.2.2.1 walletSidebar [dupHref]
      ⟨"fetch_utxos", dupHref⟩
      (by set_option maxRecDepth 4000 in decide)).1

/-! ## `validate_compact_table_data.js`: internal links in descriptions (C3)

Source: `processInternalLink` (lines 263-358) and
`validateInternalLinksInDescriptions` (lines 363-405).  The latter always
passes the dummy context file
`src/pages/komodo-defi-framework/api/common_structures/index.mdx`, links
matching `^https?:\/\/` are external and never validated, and everything
else goes through `processInternalLink`.  The Node `path` functions
(`normalize`, `resolve`, `join`) are modelled for POSIX paths; `cwd` is
`process.cwd()` (an absolute path). -/

/-- `s.slice(0, -1)`: drop the final character. -/
def dropLastChar (s : String) : String := ⟨s.data.dropLast⟩

/-- `arr.join(sep)`. -/
def jsJoin (sep : String) : List String → String
  | [] => ""
  | [s] => s
  | s :: rest => s ++ sep ++ jsJoin sep rest

/-- One-shot `s.replace(pat, rep)` on character lists: replace the
leftmost occurrence of `pat`, or return the input unchanged when `pat`
does not occur. -/
def replaceFirstChars (pat rep : List Char) : List Char → List Char
  | [] => []
  | c :: rest =>
    if pat.isPrefixOf (c :: rest) then rep ++ (c :: rest).drop pat.length
    else c :: replaceFirstChars pat rep rest

/-- JavaScript `s.replace(pat, rep)` with a string pattern (first
occurrence only). -/
def jsReplaceFirst (s pat rep : String) : String :=
  ⟨replaceFirstChars pat.data rep.data s.data⟩

/-- One step of POSIX path normalization over the segments: empty and `.`
segments vanish, `..` pops a previous segment (or is kept when relative
and nothing is left to pop), anything else is pushed. -/
def normStep (isAbs : Bool) (stack : List String) (seg : String) :
    List String :=
  if seg = "" ∨ seg = "." then stack
  else if seg = ".." then
    match stack with
    | [] => if isAbs then [] else [".."]
    | top :: rest => if top = ".." then seg :: stack else rest
  else seg :: stack

/-- Normalized segment list of a path. -/
def normalizeParts (isAbs : Bool) (parts : List String) : List String :=
  (parts.foldl (normStep isAbs) []).reverse

/-- Node `path.normalize` for POSIX paths (leading and trailing slashes
preserved). -/
def jsNormalize (p : String) : String :=
  let isAbs := jsStartsWith p "/"
  let hasTrail := jsEndsWith p "/"
  let body := jsJoin "/" (normalizeParts isAbs (jsSplit '/' p))
  if body = "" then (if isAbs then "/" else if hasTrail then "./" else ".")
  else (if isAbs then "/" else "") ++ body ++ (if hasTrail then "/" else "")

/-- Node `path.resolve(a, b)` run in the absolute working directory
`cwd`: the result is absolute and carries no trailing slash. -/
def jsResolve2 (cwd a b : String) : String :=
  let joined :=
    if jsStartsWith b "/" then b
    else if jsStartsWith a "/" then a ++ "/" ++ b
    else cwd ++ "/" ++ a ++ "/" ++ b
  "/" ++ jsJoin "/" (normalizeParts true (jsSplit '/' joined))

/-- Node `path.join` with one argument: normalize (empty becomes `.`). -/
def jsJoin1 (a : String) : String := if a = "" then "." else jsNormalize a

/-- Node `path.join(a, b)`: concatenate the non-empty parts with `/` and
normalize. -/
def jsJoin2 (a b : String) : String :=
  let parts := [a, b].filter fun s => s ≠ ""
  if parts = [] then "." else jsNormalize (jsJoin "/" parts)

/-- A character kept by the slugifier. -/
def isSlugChar (c : Char) : Bool := c.isAlpha || c.isDigit

/-- The maximal alphanumeric runs of a character list. -/
def splitRuns : List Char → List (List Char)
  | [] => []
  | c :: rest =>
    let rs := splitRuns rest
    if isSlugChar c then
      match rest with
      | [] => [[c]]
      | d :: _ =>
        if isSlugChar d then (c :: rs.headD []) :: rs.tail else [c] :: rs
    else rs

/-- The `@sindresorhus/slugify` transform as used by the validator:
lower-case the alphanumeric runs and join them with `-` (so a fragment
with no alphanumeric character slugifies to the empty string). -/
def slugify (s : String) : String :=
  jsJoin "-" ((splitRuns s.data).map fun w => ⟨w.map Char.toLower⟩)

/-- The hash fragment of a link: the part between the first and second
`#` (empty when there is no `#`). -/
def linkFragment (link : String) : String :=
  ((jsSplit '#' link)[1]?).getD ""

/-- `strippedPath` of the source: the pre-`#` part of the link with a
trailing slash removed. -/
def strippedPathOf (link : String) : String :=
  if jsEndsWith ((jsSplit '#' link).headD "") "/" then
    dropLastChar ((jsSplit '#' link).headD "")
  else (jsSplit '#' link).headD ""

/-- `currNormalisedDir` of the source: the context file with
`/index.mdx` removed and the last path segment popped. -/
def currNormalisedDirOf (currFilePath : String) : String :=
  jsJoin "/"
    ((jsSplit '/' (jsReplaceFirst currFilePath "/index.mdx" "")).dropLast)

/-- The `!correctUrl` branch of the source (lines 304-316): a fully
stripped path resolves back to the context file's own URL, anything else
is resolved against `currNormalisedDir`. -/
def fallbackUrl (cwd currFilePath sp : String) : String :=
  if sp = "" then
    jsReplaceFirst (jsReplaceFirst currFilePath "index.mdx" "")
      (dropLastChar (jsJoin1 ("src/pages" ++ "/"))) ""
  else jsJoin2 (jsResolve2 cwd (currNormalisedDirOf currFilePath) sp) "/"

/-- The extension-removed, filename-popped segment list of the
`.md`/`.html`/`.mdx` branch. -/
def extSegs (link : String) : List String :=
  jsSplit '/' (jsJoin "." ((jsSplit '.' (strippedPathOf link)).dropLast))

/-- The `correctUrl` computed by `processInternalLink` before the hash is
re-attached: this mirrors lines 268-316 of the source (the same hash
suffix is appended in every branch of the source, so it is factored out
into `computeCorrectUrl`). -/
def correctUrlBase (cwd link currFilePath : String) : String :=
  if jsEndsWith (strippedPathOf link) ".md" ||
      jsEndsWith (strippedPathOf link) ".html" ||
      jsEndsWith (strippedPathOf link) ".mdx" then
    if (((extSegs link).getLast?).getD "") ≠ "index" then
      jsJoin1 (jsResolve2 cwd (currNormalisedDirOf currFilePath)
        (jsReplaceFirst (jsReplaceFirst
          (jsReplaceFirst (strippedPathOf link) ".html" "/") ".md" "/")
          ".mdx" "/")
        ++ "/")
    else fallbackUrl cwd currFilePath (jsJoin "/" (extSegs link).dropLast)
  else fallbackUrl cwd currFilePath (strippedPathOf link)

/-- The final `correctUrl` of `processInternalLink`: re-attach the truthy
hash and strip the absolute `cwd`-rooted pages directory (the last
`replace` of the source). -/
def computeCorrectUrl (cwd link currFilePath : String) : String :=
  jsReplaceFirst
    (correctUrlBase cwd link currFilePath ++
      (if linkFragment link ≠ "" then "#" ++ linkFragment link else ""))
    (jsJoin2 cwd "src/pages") ""

/-- `internalLinkFile`: the resolved target with `index.mdx` appended. -/
def resolvedTargetFile (cwd link currFilePath : String) : String :=
  jsJoin2 "src/pages"
    (((jsSplit '#' (computeCorrectUrl cwd link currFilePath)).headD "") ++
      "index.mdx")

/-- The slug the validator checks: slugified second `#`-component of the
final `correctUrl`, or `""` when that component is falsy. -/
def codeSlug (cwd link currFilePath : String) : String :=
  let parts := jsSplit '#' (computeCorrectUrl cwd link currFilePath)
  if ((parts[1]?).getD "") ≠ "" then slugify ((parts[1]?).getD "") else ""

/-- The dummy context file `validateInternalLinksInDescriptions` passes
for every table-description link. -/
def dummyFilePath : String :=
  "src/pages/komodo-defi-framework/api/common_structures/index.mdx"

/-- The result record of `processInternalLink`. -/
structure LinkResult where
  valid : Bool
  error : Option String
  deriving DecidableEq, Repr

/-- `processInternalLink`: a `mailto:` link is valid outright; otherwise
the resolved target must be a key of the heading-slug map, a non-empty
slug must occur among that file's heading slugs, and the target file must
be accessible on disk (`fsFiles`). -/
def processInternalLink (cwd link currFilePath : String)
    (filepathSlugs : List (String × List String)) (fsFiles : List String) :
    LinkResult :=
  if jsStartsWith link "mailto:" then ⟨true, none⟩
  else
    let internalLinkFile := resolvedTargetFile cwd link currFilePath
    let slug := codeSlug cwd link currFilePath
    match filepathSlugs.find? fun p => p.1 = internalLinkFile with
    | none =>
      ⟨false, some ("Target file not found: " ++ internalLinkFile ++
        " for link: " ++ link)⟩
    | some entry =>
      if slug ≠ "" ∧ ¬(entry.2.contains slug = true) then
        ⟨false, some ("Slug \"" ++ slug ++ "\" not found in file: " ++
          internalLinkFile ++ " for link: " ++ link)⟩
      else if fsFiles.contains internalLinkFile then ⟨true, none⟩
      else
        ⟨false, some ("Cannot access file: " ++ internalLinkFile ++
          " for link: " ++ link)⟩

/-- The C3 acceptance condition exactly as the specification states it:
valid iff the resolved target (with `index.mdx` appended) is a key of the
heading-slug map and, when the link carries a hash fragment, the
slugified fragment occurs among that file's heading slugs; `mailto:`
links are always valid. -/
def linkValidPerSpec (cwd link currFilePath : String)
    (filepathSlugs : List (String × List String)) : Bool :=
  jsStartsWith link "mailto:" ||
    (match filepathSlugs.find?
        (fun p => p.1 = resolvedTargetFile cwd link currFilePath) with
     | none => false
     | some entry =>
       linkFragment link = "" ||
         entry.2.contains (slugify (linkFragment link)))

/-- The heading-slug map of the C3 counterexample. -/
def cexSlugMap : List (String × List String) :=
  [("src/pages/foo/index.mdx", ["intro"])]

/-- The page files on disk in the C3 counterexample. -/
def cexFs : List String := ["src/pages/foo/index.mdx"]

/-- Counterexample for C3 as stated: the link `/foo/#???` carries the hash
fragment `???`, whose slugified form is empty and certainly not a heading
slug of `src/pages/foo/index.mdx`; the claim therefore calls the link
invalid, yet `processInternalLink` reports it valid because the code
skips the slug check entirely when the slugified fragment is empty
(`slug !== "" && ...`). -/
theorem processInternalLink_cex :
    (processInternalLink "/repo" "/foo/#???" dummyFilePath cexSlugMap
      cexFs).valid = true ∧
    linkValidPerSpec "/repo" "/foo/#???" dummyFilePath cexSlugMap =
      false := by
  constructor
  · set_option maxRecDepth 8000 in decide
  · set_option maxRecDepth 8000 in decide

theorem splitCharAux_sep_not_mem (sep : Char) :
    ∀ (l cur : List Char), sep ∉ cur →
      ∀ part ∈ splitCharAux sep l cur, sep ∉ part := by
  intro l
  induction l with
  | nil =>
    intro cur hcur part hpart
    simp only [splitCharAux, List.mem_singleton] at hpart
    subst hpart
    simpa using hcur
  | cons c rest ih =>
    intro cur hcur part hpart
    rw [splitCharAux] at hpart
    by_cases hc : c = sep
    · rw [if_pos hc] at hpart
      rcases List.mem_cons.mp hpart with h1 | h2
      · subst h1; simpa using hcur
      · exact ih [] (by simp) part h2
    · rw [if_neg hc] at hpart
      refine ih (c :: cur) ?_ part hpart
      intro hmem
      rcases List.mem_cons.mp hmem with h1 | h2
      · exact hc h1.symm
      · exact hcur h2

theorem jsSplit_sep_not_mem (sep : Char) (s : String) :
    ∀ part ∈ jsSplit sep s, sep ∉ part.data := by
  intro part hpart
  rw [jsSplit, List.mem_map] at hpart
  obtain ⟨l, hl, hpart⟩ := hpart
  subst hpart
  exact splitCharAux_sep_not_mem sep s.data [] (by simp) l hl

theorem splitCharAux_chars_subset (sep : Char) :
    ∀ (l cur : List Char), ∀ part ∈ splitCharAux sep l cur,
      ∀ c ∈ part, c ∈ cur ∨ c ∈ l := by
  intro l
  induction l with
  | nil =>
    intro cur part hpart c hc
    simp only [splitCharAux, List.mem_singleton] at hpart
    subst hpart
    exact Or.inl (List.mem_reverse.mp hc)
  | cons a rest ih =>
    intro cur part hpart c hc
    rw [splitCharAux] at hpart
    by_cases ha : a = sep
    · rw [if_pos ha] at hpart
      rcases List.mem_cons.mp hpart with h1 | h2
      · subst h1
        exact Or.inl (List.mem_reverse.mp hc)
      · rcases ih [] part h2 c hc with h | h
        · cases h
        · exact Or.inr (List.mem_cons_of_mem _ h)
    · rw [if_neg ha] at hpart
      rcases ih (a :: cur) part hpart c hc with h | h
      · rcases List.mem_cons.mp h with h1 | h2
        · exact Or.inr (h1 ▸ List.mem_cons_self _ _)
        · exact Or.inl h2
      · exact Or.inr (List.mem_cons_of_mem _ h)

theorem jsSplit_chars_subset (sep : Char) (s : String) :
    ∀ part ∈ jsSplit sep s, ∀ c ∈ part.data, c ∈ s.data := by
  intro part hpart c hc
  rw [jsSplit, List.mem_map] at hpart
  obtain ⟨l, hl, hpart⟩ := hpart
  subst hpart
  rcases splitCharAux_chars_subset sep s.data [] l hl c hc with h | h
  · cases h
  · exact h

theorem replaceFirstChars_no_occ (pat rep : List Char) :
    ∀ l, ¬ (pat <:+: l) → replaceFirstChars pat rep l = l := by
  intro l
  induction l with
  | nil => intro _; rfl
  | cons c rest ih =>
    intro hno
    rw [replaceFirstChars]
    have hnp : ¬ (pat.isPrefixOf (c :: rest) = true) := by
      intro hpre
      exact hno (List.isPrefixOf_iff_prefix.mp hpre).isInfix
    rw [if_neg hnp, ih fun hinf => hno (List.infix_cons hinf)]

theorem prefix_of_append_hash :
    ∀ (pat b f : List Char), '#' ∉ pat →
      pat <+: b ++ '#' :: f → pat <+: b := by
  intro pat
  induction pat with
  | nil => intro b f _ _; exact List.nil_prefix
  | cons p ps ih =>
    intro b f hp hpre
    cases b with
    | nil =>
      rw [List.nil_append] at hpre
      obtain ⟨hph, -⟩ := List.cons_prefix_cons.mp hpre
      exact absurd (hph ▸ List.mem_cons_self p ps) hp
    | cons c b' =>
      rw [List.cons_append] at hpre
      obtain ⟨hpc, htail⟩ := List.cons_prefix_cons.mp hpre
      have hps : '#' ∉ ps := fun h => hp (List.mem_cons_of_mem _ h)
      exact List.cons_prefix_cons.mpr ⟨hpc, ih b' f hps htail⟩

theorem replaceFirstChars_hash_seg (pat : List Char) (hne : pat ≠ [])
    (hp : '#' ∉ pat) :
    ∀ (b f : List Char), '#' ∉ b → '#' ∉ f → ¬ (pat <:+: f) →
      ∃ b', '#' ∉ b' ∧
        replaceFirstChars pat [] (b ++ '#' :: f) = b' ++ '#' :: f := by
  intro b
  induction b with
  | nil =>
    intro f _ hf hinf
    rw [List.nil_append, replaceFirstChars]
    have hnp : ¬ (pat.isPrefixOf ('#' :: f) = true) := by
      intro hpre
      cases pat with
      | nil => exact hne rfl
      | cons p ps =>
        obtain ⟨hph, -⟩ := List.cons_prefix_cons.mp (List.isPrefixOf_iff_prefix.mp hpre)
        exact hp (hph ▸ List.mem_cons_self p ps)
    rw [if_neg hnp, replaceFirstChars_no_occ pat [] f hinf]
    exact ⟨[], by simp, rfl⟩
  | cons c b ih =>
    intro f hcb hf hinf
    have hc : c ≠ '#' := fun h => hcb (h ▸ List.mem_cons_self _ _)
    have hb : '#' ∉ b := fun h => hcb (List.mem_cons_of_mem _ h)
    rw [List.cons_append, replaceFirstChars]
    by_cases hpre : pat.isPrefixOf (c :: (b ++ '#' :: f)) = true
    · rw [if_pos hpre]
      have hpre' : pat <+: (c :: b) ++ '#' :: f := by
        rw [List.cons_append]
        exact List.isPrefixOf_iff_prefix.mp hpre
      have hpb : pat <+: c :: b := prefix_of_append_hash pat (c :: b) f hp hpre'
      obtain ⟨t, ht⟩ := hpb
      have hsplit : c :: (b ++ '#' :: f) = pat ++ (t ++ '#' :: f) := by
        rw [← List.append_assoc, ht, List.cons_append]
      rw [hsplit, List.nil_append, List.drop_left]
      refine ⟨t, ?_, rfl⟩
      intro hmem
      have : '#' ∈ c :: b := ht ▸ List.mem_append_right pat hmem
      exact hcb this
    · rw [if_neg hpre]
      obtain ⟨b', hb', heq⟩ := ih f hb hf hinf
      exact ⟨c :: b', by
        intro h
        rcases List.mem_cons.mp h with h1 | h2
        · exact hc h1.symm
        · exact hb' h2, by rw [heq, List.cons_append]⟩

theorem splitCharAux_no_sep (sep : Char) :
    ∀ (l cur : List Char), sep ∉ l →
      splitCharAux sep l cur = [cur.reverse ++ l] := by
  intro l
  induction l with
  | nil => intro cur _; simp [splitCharAux]
  | cons c rest ih =>
    intro cur hno
    have hc : ¬ (c = sep) := fun h => hno (h ▸ List.mem_cons_self _ _)
    rw [splitCharAux, if_neg hc,
      ih (c :: cur) fun h => hno (List.mem_cons_of_mem _ h)]
    simp

theorem splitCharAux_seg (sep : Char) :
    ∀ (b cur f : List Char), sep ∉ b →
      splitCharAux sep (b ++ sep :: f) cur =
        (cur.reverse ++ b) :: splitCharAux sep f [] := by
  intro b
  induction b with
  | nil =>
    intro cur f _
    rw [List.nil_append, splitCharAux, if_pos rfl]
    simp
  | cons c b ih =>
    intro cur f hno
    have hc : ¬ (c = sep) := fun h => hno (h ▸ List.mem_cons_self _ _)
    rw [List.cons_append, splitCharAux, if_neg hc,
      ih (c :: cur) f fun h => hno (List.mem_cons_of_mem _ h)]
    simp

theorem jsSplit_of_no_sep (sep : Char) (s : String) (h : sep ∉ s.data) :
    jsSplit sep s = [s] := by
  rw [jsSplit, splitCharAux_no_sep sep s.data [] h]
  simp

theorem jsSplit_hash_seg (b f : String) (hb : '#' ∉ b.data)
    (hf : '#' ∉ f.data) :
    jsSplit '#' (b ++ "#" ++ f) = [b, f] := by
  have hdata : (b ++ "#" ++ f).data = b.data ++ '#' :: f.data := by
    simp [String.data_append]
  rw [jsSplit, hdata, splitCharAux_seg '#' b.data [] f.data hb,
    splitCharAux_no_sep '#' f.data [] hf]
  simp

theorem noHash_append (a b : String) (ha : '#' ∉ a.data)
    (hb : '#' ∉ b.data) : '#' ∉ (a ++ b).data := by
  rw [String.data_append]
  intro h
  rcases List.mem_append.mp h with h1 | h2
  · exact ha h1
  · exact hb h2

theorem noHash_jsJoin (sep : String) (hsep : '#' ∉ sep.data) :
    ∀ l : List String, (∀ s ∈ l, '#' ∉ s.data) →
      '#' ∉ (jsJoin sep l).data := by
  intro l
  induction l with
  | nil => intro _; simp [jsJoin]
  | cons s rest ih =>
    intro h
    cases rest with
    | nil =>
      have he : jsJoin sep [s] = s := rfl
      rw [he]
      exact h s (by simp)
    | cons t rest' =>
      have he : jsJoin sep (s :: t :: rest') =
          s ++ sep ++ jsJoin sep (t :: rest') := rfl
      rw [he]
      exact noHash_append _ _
        (noHash_append _ _ (h s (by simp)) hsep)
        (ih fun x hx => h x (List.mem_cons_of_mem _ hx))

theorem noHash_foldl_normStep (isAbs : Bool) :
    ∀ (parts stack : List String), (∀ p ∈ parts, '#' ∉ p.data) →
      (∀ q ∈ stack, '#' ∉ q.data) →
      ∀ x ∈ parts.foldl (normStep isAbs) stack, '#' ∉ x.data := by
  intro parts
  induction parts with
  | nil => intro stack _ hstack x hx; exact hstack x hx
  | cons p rest ih =>
    intro stack hparts hstack x hx
    rw [List.foldl_cons] at hx
    have hp : '#' ∉ p.data := hparts p (List.mem_cons_self _ _)
    have hrest : ∀ q ∈ rest, '#' ∉ q.data := fun q hq =>
      hparts q (List.mem_cons_of_mem _ hq)
    refine ih (normStep isAbs stack p) hrest ?_ x hx
    intro q hq
    rw [normStep.eq_def] at hq
    split at hq
    · exact hstack q hq
    · split at hq
      · split at hq
        · split at hq
          · cases hq
          · rcases List.mem_cons.mp hq with h1 | h2
            · subst h1; decide
            · cases h2
        · split at hq
          · rcases List.mem_cons.mp hq with h1 | h2
            · subst h1; exact hp
            · exact hstack q h2
          · exact hstack q (List.mem_cons_of_mem _ hq)
      · rcases List.mem_cons.mp hq with h1 | h2
        · subst h1; exact hp
        · exact hstack q h2

theorem noHash_normalizeParts (isAbs : Bool) (parts : List String)
    (h : ∀ p ∈ parts, '#' ∉ p.data) :
    ∀ x ∈ normalizeParts isAbs parts, '#' ∉ x.data := by
  intro x hx
  rw [normalizeParts, List.mem_reverse] at hx
  exact noHash_foldl_normStep isAbs parts [] h (by simp) x hx

theorem noHash_jsSplitParts (sep : Char) (s : String) (h : '#' ∉ s.data) :
    ∀ p ∈ jsSplit sep s, '#' ∉ p.data := by
  intro p hp hmem
  exact h (jsSplit_chars_subset sep s p hp '#' hmem)

theorem noHash_jsNormalize (p : String) (h : '#' ∉ p.data) :
    '#' ∉ (jsNormalize p).data := by
  rw [jsNormalize]
  have hbody : '#' ∉ (jsJoin "/" (normalizeParts (jsStartsWith p "/")
      (jsSplit '/' p))).data :=
    noHash_jsJoin "/" (by decide) _
      (noHash_normalizeParts _ _ (noHash_jsSplitParts '/' p h))
  split
  · split
    · decide
    · split
      · decide
      · decide
  · split <;>
    · refine noHash_append _ _ (noHash_append _ _ ?_ hbody) ?_ <;>
        first
          | decide
          | (split <;> decide)

theorem noHash_jsResolve2 (cwd a b : String) (hcwd : '#' ∉ cwd.data)
    (ha : '#' ∉ a.data) (hb : '#' ∉ b.data) :
    '#' ∉ (jsResolve2 cwd a b).data := by
  rw [jsResolve2]
  have hjoined : '#' ∉ ((if jsStartsWith b "/" then b
      else if jsStartsWith a "/" then a ++ "/" ++ b
      else cwd ++ "/" ++ a ++ "/" ++ b) : String).data := by
    split
    · exact hb
    · split
      · exact noHash_append _ _ (noHash_append _ _ ha (by decide)) hb
      · exact noHash_append _ _ (noHash_append _ _
          (noHash_append _ _ (noHash_append _ _ hcwd (by decide)) ha)
          (by decide)) hb
  exact noHash_append _ _ (by decide)
    (noHash_jsJoin "/" (by decide) _
      (noHash_normalizeParts _ _ (noHash_jsSplitParts '/' _ hjoined)))

theorem noHash_jsJoin1 (a : String) (ha : '#' ∉ a.data) :
    '#' ∉ (jsJoin1 a).data := by
  rw [jsJoin1]
  split
  · decide
  · exact noHash_jsNormalize a ha

theorem noHash_jsJoin2 (a b : String) (ha : '#' ∉ a.data)
    (hb : '#' ∉ b.data) : '#' ∉ (jsJoin2 a b).data := by
  rw [jsJoin2]
  split
  · decide
  · refine noHash_jsNormalize _ (noHash_jsJoin "/" (by decide) _ ?_)
    intro s hs
    have hsub : ([a, b].filter fun s => s ≠ "") ⊆ [a, b] :=
      List.filter_subset' [a, b]
    rcases List.mem_pair.mp (hsub hs) with h | h
    · exact h ▸ ha
    · exact h ▸ hb

theorem noHash_replaceFirstChars (pat rep : List Char) (hrep : '#' ∉ rep) :
    ∀ l, '#' ∉ l → '#' ∉ replaceFirstChars pat rep l := by
  intro l
  induction l with
  | nil => intro _; simp [replaceFirstChars]
  | cons c rest ih =>
    intro hl
    rw [replaceFirstChars]
    split
    · intro hmem
      rcases List.mem_append.mp hmem with h1 | h2
      · exact hrep h1
      · exact hl (List.mem_of_mem_drop h2)
    · intro hmem
      rcases List.mem_cons.mp hmem with h1 | h2
      · exact hl (h1 ▸ List.mem_cons_self _ _)
      · exact ih (fun h => hl (List.mem_cons_of_mem _ h)) h2

theorem noHash_jsReplaceFirst (s pat rep : String) (hrep : '#' ∉ rep.data)
    (hs : '#' ∉ s.data) : '#' ∉ (jsReplaceFirst s pat rep).data :=
  noHash_replaceFirstChars pat.data rep.data hrep s.data hs

theorem noHash_dropLastChar (s : String) (hs : '#' ∉ s.data) :
    '#' ∉ (dropLastChar s).data := by
  intro h
  exact hs (List.dropLast_subset s.data h)

theorem noHash_headD (l : List String) (h : ∀ p ∈ l, '#' ∉ p.data) :
    '#' ∉ (l.headD "").data := by
  cases l with
  | nil => decide
  | cons a rest => exact h a (List.mem_cons_self _ _)

theorem noHash_getLastD (l : List String) (h : ∀ p ∈ l, '#' ∉ p.data) :
    '#' ∉ ((l.getLast?).getD "").data := by
  cases hl : l.getLast? with
  | none => decide
  | some a =>
    exact h a (List.mem_of_mem_getLast? hl)

theorem noHash_dropLast_parts (l : List String)
    (h : ∀ p ∈ l, '#' ∉ p.data) : ∀ p ∈ l.dropLast, '#' ∉ p.data :=
  fun p hp => h p (List.dropLast_subset l hp)

theorem jsNormalize_data_ne_nil (p : String) : (jsNormalize p).data ≠ [] := by
  simp only [jsNormalize]
  split
  · split
    · decide
    · split <;> decide
  · rename_i hbody
    simp only [String.data_append]
    intro hnil
    rcases List.append_eq_nil.mp hnil with ⟨h1, -⟩
    rcases List.append_eq_nil.mp h1 with ⟨-, hb⟩
    exact hbody (String.ext hb)

theorem jsJoin2_data_ne_nil (a b : String) : (jsJoin2 a b).data ≠ [] := by
  simp only [jsJoin2]
  split
  · decide
  · exact jsNormalize_data_ne_nil _

theorem noHash_linkFragment (link : String) :
    '#' ∉ (linkFragment link).data := by
  rw [linkFragment]
  cases h : (jsSplit '#' link)[1]? with
  | none => decide
  | some part =>
    exact jsSplit_sep_not_mem '#' link part (List.getElem?_mem h)

theorem noHash_strippedPathOf (link : String) :
    '#' ∉ (strippedPathOf link).data := by
  have hsp0 : '#' ∉ ((jsSplit '#' link).headD "").data :=
    noHash_headD _ (jsSplit_sep_not_mem '#' link)
  rw [strippedPathOf]
  split
  · exact noHash_dropLastChar _ hsp0
  · exact hsp0

theorem noHash_currNormalisedDirOf (currFilePath : String)
    (hcf : '#' ∉ currFilePath.data) :
    '#' ∉ (currNormalisedDirOf currFilePath).data := by
  rw [currNormalisedDirOf]
  refine noHash_jsJoin "/" (by decide) _ ?_
  exact noHash_dropLast_parts _ (noHash_jsSplitParts '/' _
    (noHash_jsReplaceFirst _ _ _ (by decide) hcf))

theorem noHash_fallbackUrl (cwd currFilePath sp : String)
    (hcwd : '#' ∉ cwd.data) (hcf : '#' ∉ currFilePath.data)
    (hsp : '#' ∉ sp.data) : '#' ∉ (fallbackUrl cwd currFilePath sp).data := by
  rw [fallbackUrl]
  split
  · exact noHash_jsReplaceFirst _ _ _ (by decide)
      (noHash_jsReplaceFirst _ _ _ (by decide) hcf)
  · exact noHash_jsJoin2 _ _ (noHash_jsResolve2 _ _ _ hcwd
      (noHash_currNormalisedDirOf _ hcf) hsp) (by decide)

theorem noHash_extSegs (link : String) :
    ∀ p ∈ extSegs link, '#' ∉ p.data := by
  intro p hp
  rw [extSegs] at hp
  refine noHash_jsSplitParts '/' _ ?_ p hp
  refine noHash_jsJoin "." (by decide) _ ?_
  exact noHash_dropLast_parts _
    (noHash_jsSplitParts '.' _ (noHash_strippedPathOf link))

theorem noHash_correctUrlBase (cwd link currFilePath : String)
    (hcwd : '#' ∉ cwd.data) (hcf : '#' ∉ currFilePath.data) :
    '#' ∉ (correctUrlBase cwd link currFilePath).data := by
  rw [correctUrlBase]
  split
  · split
    · refine noHash_jsJoin1 _ (noHash_append _ _ ?_ (by decide))
      refine noHash_jsResolve2 _ _ _ hcwd
        (noHash_currNormalisedDirOf _ hcf) ?_
      refine noHash_jsReplaceFirst _ _ _ (by decide) ?_
      refine noHash_jsReplaceFirst _ _ _ (by decide) ?_
      exact noHash_jsReplaceFirst _ _ _ (by decide) (noHash_strippedPathOf link)
    · refine noHash_fallbackUrl _ _ _ hcwd hcf ?_
      exact noHash_jsJoin "/" (by decide) _
        (noHash_dropLast_parts _ (noHash_extSegs link))
  · exact noHash_fallbackUrl _ _ _ hcwd hcf (noHash_strippedPathOf link)

theorem codeSlug_eq (cwd link currFilePath : String)
    (hcwd : '#' ∉ cwd.data) (hcf : '#' ∉ currFilePath.data)
    (hfrag : ¬ ((jsJoin2 cwd "src/pages").data <:+:
      (linkFragment link).data)) :
    codeSlug cwd link currFilePath =
      if linkFragment link ≠ "" then slugify (linkFragment link) else "" := by
  have hbase := noHash_correctUrlBase cwd link currFilePath hcwd hcf
  have hpat : '#' ∉ (jsJoin2 cwd "src/pages").data :=
    noHash_jsJoin2 _ _ hcwd (by decide)
  have hpatne : (jsJoin2 cwd "src/pages").data ≠ [] := jsJoin2_data_ne_nil _ _
  have hfra := noHash_linkFragment link
  by_cases hf : linkFragment link = ""
  · have hcu : '#' ∉ (computeCorrectUrl cwd link currFilePath).data := by
      rw [computeCorrectUrl]
      refine noHash_jsReplaceFirst _ _ _ (by decide) ?_
      refine noHash_append _ _ hbase ?_
      rw [if_neg (fun h => h hf)]
      decide
    rw [codeSlug]
    rw [jsSplit_of_no_sep '#' _ hcu]
    simp [hf]
  · obtain ⟨b', hb', heq⟩ := replaceFirstChars_hash_seg
      (jsJoin2 cwd "src/pages").data hpatne hpat
      (correctUrlBase cwd link currFilePath).data
      (linkFragment link).data hbase hfra hfrag
    have hdata : (computeCorrectUrl cwd link currFilePath).data =
        b' ++ '#' :: (linkFragment link).data := by
      rw [computeCorrectUrl, if_pos hf]
      show replaceFirstChars (jsJoin2 cwd "src/pages").data "".data
        ((correctUrlBase cwd link currFilePath ++
          ("#" ++ linkFragment link)).data) = _
      have harg : (correctUrlBase cwd link currFilePath ++
          ("#" ++ linkFragment link)).data =
          (correctUrlBase cwd link currFilePath).data ++
            '#' :: (linkFragment link).data := by
        simp [String.data_append]
      rw [harg]
      exact heq
    have hcu2 : computeCorrectUrl cwd link currFilePath =
        (⟨b'⟩ : String) ++ "#" ++ linkFragment link := by
      apply String.ext
      rw [hdata]
      simp [String.data_append]
    rw [codeSlug]
    rw [hcu2, jsSplit_hash_seg ⟨b'⟩ (linkFragment link) hb' hfra]
    simp [hf]

/-- C3 (amended) -- for every internal link in a table-row description
(validated against the fixed context file
`src/pages/komodo-defi-framework/api/common_structures/index.mdx`),
`processInternalLink` reports the link valid if and only if it is a
`mailto:` link, or the resolved target path with `index.mdx` appended is
a key of the heading-slug map and, when the link carries a hash fragment,
the slugified fragment is either empty (the validator then skips the
fragment check) or occurs among that file's heading slugs.  The
hypotheses record the run context: the slug map's keys are files read
from disk, the working directory contains no `#`, and the link's
fragment does not contain the absolute pages-directory path. -/
theorem processInternalLink_spec (cwd link : String)
    (filepathSlugs : List (String × List String)) (fsFiles : List String)
    (hcwd : '#' ∉ cwd.data)
    (hfrag : ¬ ((jsJoin2 cwd "src/pages").data <:+:
      (linkFragment link).data))
    (hmap : ∀ p ∈ filepathSlugs, p.1 ∈ fsFiles) :
    (processInternalLink cwd link dummyFilePath filepathSlugs
        fsFiles).valid = true ↔
      (jsStartsWith link "mailto:" = true ∨
        ∃ entry, filepathSlugs.find?
            (fun p => p.1 = resolvedTargetFile cwd link dummyFilePath) =
            some entry ∧
          (linkFragment link ≠ "" →
            slugify (linkFragment link) = "" ∨
            entry.2.contains (slugify (linkFragment link)) = true)) := by
  have hslug := codeSlug_eq cwd link dummyFilePath hcwd (by decide) hfrag
  rw [processInternalLink]
  split
  · rename_i hm
    constructor
    · intro _
      exact Or.inl hm
    · intro _
      rfl
  · rename_i hm
    dsimp only
    cases hfind : filepathSlugs.find?
        (fun p => p.1 = resolvedTargetFile cwd link dummyFilePath) with
    | none =>
      constructor
      · intro hv
        exact Bool.noConfusion hv
      · rintro (h | ⟨entry, hentry, -⟩)
        · exact absurd h hm
        · cases hentry
    | some entry =>
      dsimp only
      have hmem : entry ∈ filepathSlugs := List.mem_of_find?_eq_some hfind
      have hkey : entry.1 = resolvedTargetFile cwd link dummyFilePath := by
        have := List.find?_some hfind
        simpa using this
      have hfs : fsFiles.contains
          (resolvedTargetFile cwd link dummyFilePath) = true := by
        rw [← hkey]
        exact List.elem_eq_true_of_mem (hmap entry hmem)
      rw [hslug]
      by_cases hf : linkFragment link = ""
      · have hslugv : (if linkFragment link ≠ "" then
            slugify (linkFragment link) else "") = "" :=
          if_neg fun h => h hf
        rw [hslugv]
        have hcond : ¬(("" : String) ≠ "" ∧
            ¬(entry.2.contains ("" : String) = true)) := by
          intro h
          exact h.1 rfl
        rw [if_neg hcond, if_pos hfs]
        constructor
        · intro _
          exact Or.inr ⟨entry, rfl, fun hne => absurd hf hne⟩
        · intro _
          rfl
      · have hslugv : (if linkFragment link ≠ "" then
            slugify (linkFragment link) else "") =
            slugify (linkFragment link) := if_pos hf
        rw [hslugv]
        by_cases hsz : slugify (linkFragment link) = ""
        · have hcond : ¬(slugify (linkFragment link) ≠ "" ∧
              ¬(entry.2.contains (slugify (linkFragment link)) = true)) := by
            intro h
            exact h.1 hsz
          rw [if_neg hcond, if_pos hfs]
          constructor
          · intro _
            exact Or.inr ⟨entry, rfl, fun _ => Or.inl hsz⟩
          · intro _
            rfl
        · by_cases hcontains :
              entry.2.contains (slugify (linkFragment link)) = true
          · have hcond : ¬(slugify (linkFragment link) ≠ "" ∧
                ¬(entry.2.contains (slugify (linkFragment link)) = true)) := by
              intro h
              exact h.2 hcontains
            rw [if_neg hcond, if_pos hfs]
            constructor
            · intro _
              exact Or.inr ⟨entry, rfl, fun _ => Or.inr hcontains⟩
            · intro _
              rfl
          · have hcond : slugify (linkFragment link) ≠ "" ∧
                ¬(entry.2.contains (slugify (linkFragment link)) = true) :=
              ⟨hsz, hcontains⟩
            rw [if_pos hcond]
            constructor
            · intro hv
              exact Bool.noConfusion hv
            · rintro (h | ⟨entry', hentry', himp⟩)
              · exact absurd h hm
              · cases hentry'
                rcases himp hf with h1 | h2
                · exact absurd h1 hsz
                · exact absurd h2 hcontains

/-- Witness for C3 (amended): the link `/foo/#overview` against a slug
map carrying `overview` for `src/pages/foo/index.mdx` is reported
valid. -/
theorem processInternalLink_spec_witness :
    (processInternalLink "/repo" "/foo/#overview" dummyFilePath
      [("src/pages/foo/index.mdx", ["overview"])]
      ["src/pages/foo/index.mdx"]).valid = true := by
  refine (processInternalLink_spec "/repo" "/foo/#overview"
    [("src/pages/foo/index.mdx", ["overview"])]
    ["src/pages/foo/index.mdx"] (by decide)
    (by set_option maxRecDepth 8000 in decide) (by decide)).mpr ?_
  refine Or.inr ⟨("src/pages/foo/index.mdx", ["overview"]), ?_, ?_⟩
  · set_option maxRecDepth 8000 in decide
  · intro _
    right
    set_option maxRecDepth 8000 in decide

end KomodoDocs
